import Mathlib

/-!
Sequential RAK (label propagation) community detection.

A shallow embedding of `src/rakSeq.hxx`: the per-vertex move rule
(`rakMoveIteration`), the convergence loop (`rakSeq`) and the three entry
points (`rakSeqStatic`, `rakSeqDynamicDeltaScreening`,
`rakSeqDynamicFrontier`).

Conventions of the embedding.

* Vertex ids and community ids (`K`) are natural numbers; no arithmetic is
  done on them, so their width plays no role.  The change counter `a`
  (`size_t`) and the iteration counter `l` (`int`) only count up to the
  number of vertices, resp. up to `maxIterations`, and cannot wrap.
* `vector<K>` is `List Nat`; `vcom[u]` is `vcom.getD u 0` and
  `vcom[u] = c` is `vcom.set u c`.  The C++ code is only defined for
  `u < vcom.size()`; theorems that depend on a write taking effect carry
  that bound as a hypothesis.
* `double` weights are exact rationals.  The convergence test of `rakSeq` is
  done in double arithmetic: see `roundBinary64` and `ratioLeTol`.
* Mutable references become explicit state: a pass maps a `MoveState` to a
  `MoveState`.  The closures `fa` and `fp` own a captured state `env : σ`
  (the flag array `vaff` in the frontier mode); they may read the
  assignment, and `fp` returns the new captured state.
* `rakSeq.hxx` includes `rak.hxx` and `_main.hxx`, which are not among the
  sources.  The helpers it calls from there are the fields of `RakOps`, so
  a theorem stated for every `ops` holds whatever those helpers do.  For
  statements that need a concrete helper, a model written from the
  specification is given (`rakInitialize`, `rakClearScan`, ...).
-/

namespace RakSeq

/-! ## Data model -/

/-- Modelled from the spec: the Graph View collaborator (its class is not
among the sources).  `span` is the size `S` of the id domain, `keys` is the
sequence of valid vertex ids in the order `forEachVertexKey` visits them, and
`edges u` is the sequence of `(neighbour, weight)` pairs of `u` in the order
`forEachEdgeKey` visits them. -/
structure Graph where
  span : Nat
  keys : List Nat
  edges : Nat → List (Nat × ℚ)

/-- Number of valid vertices, `x.order()`. -/
def Graph.order (x : Graph) : Nat := x.keys.length

/-- Neighbour ids of `u` in `forEachEdgeKey` order. -/
def Graph.edgeKeys (x : Graph) (u : Nat) : List Nat := (x.edges u).map Prod.fst

/-- Scratch buffers `vcs` (candidate communities) and `vcout` (weight per
community) that are threaded through every vertex visit. -/
structure Scratch where
  vcs : List Nat
  vcout : List ℚ
deriving DecidableEq

/-- Edge deletions: `vector<tuple<K, K>>`. -/
abbrev Deletions := List (Nat × Nat)

/-- Edge insertions: `vector<tuple<K, K, V>>`. -/
abbrev Insertions := List (Nat × Nat × ℚ)

/-- Helpers that `rakSeq.hxx` calls but does not define (they live in
`rak.hxx`).  `chooseCommunity` takes the template flag `STRICT` first and
returns the pair `(c, w)`. -/
structure RakOps where
  initCommunities : List Nat → Graph → List Nat
  clearScan : Scratch → Scratch
  scanCommunities : Scratch → Graph → Nat → List Nat → Scratch
  chooseCommunity : Bool → Graph → Nat → List Nat → Scratch → Nat × ℚ
  affectedDeltaScreening : Bool → Graph → Deletions → Insertions → List Nat → List Bool
  affectedFrontier : Graph → Deletions → Insertions → List Nat → List Bool

/-- Modelled from the spec: `RakOptions` (declared in `rak.hxx`), the run
configuration: repeat count, convergence tolerance, iteration cap. -/
structure RakOptions where
  repeatCount : Int
  tolerance : ℚ
  maxIterations : Int

/-- Modelled from the spec: `RakResult` (declared in `rak.hxx`): the final
assignment and the number of iterations performed.  The elapsed time is a
wall-clock reading and is left out. -/
structure RakResult where
  membership : List Nat
  iterations : Int
deriving DecidableEq

/-! ## `rakMoveIteration` -/

/-- Everything one pass reads and writes: the scratch buffers, the
assignment `vcom`, the change counter `a` and the state captured by the
callbacks. -/
structure MoveState (σ : Type) where
  buf : Scratch
  vcom : List Nat
  a : Nat
  env : σ

/-- Candidate `c` that Community Choice returns for `u` on assignment `vcom`,
after the buffers `buf` have been cleared and scanned (lines 36-38). -/
def rakCandidate (ops : RakOps) (STRICT : Bool) (x : Graph) (buf : Scratch)
    (vcom : List Nat) (u : Nat) : Nat :=
  (ops.chooseCommunity STRICT x u vcom
    (ops.scanCommunities (ops.clearScan buf) x u vcom)).1

/-- Body of the lambda handed to `forEachVertexKey` (lines 33-40): the visit
of one vertex `u`. -/
def rakMoveVisit {σ : Type} (ops : RakOps) (STRICT : Bool) (x : Graph)
    (fa : σ → List Nat → Nat → Bool) (fp : σ → List Nat → Nat → σ)
    (st : MoveState σ) (u : Nat) : MoveState σ :=
  if fa st.env st.vcom u = false then st
  else
    let d := st.vcom.getD u 0
    let buf := ops.scanCommunities (ops.clearScan st.buf) x u st.vcom
    let c := (ops.chooseCommunity STRICT x u st.vcom buf).1
    if c ≠ 0 ∧ c ≠ d then
      { buf := buf, vcom := st.vcom.set u c, a := st.a + 1,
        env := fp st.env (st.vcom.set u c) u }
    else
      { buf := buf, vcom := st.vcom, a := st.a, env := st.env }

/-- Visits of the vertices `ks`, in order, from state `st`. -/
def rakMoveFrom {σ : Type} (ops : RakOps) (STRICT : Bool) (x : Graph)
    (fa : σ → List Nat → Nat → Bool) (fp : σ → List Nat → Nat → σ)
    (ks : List Nat) (st : MoveState σ) : MoveState σ :=
  ks.foldl (rakMoveVisit ops STRICT x fa fp) st

/-- One pass, `rakMoveIteration` (lines 30-42).  The returned state holds the
return value in `a` and the updated `vcs`, `vcout`, `vcom` and callback
state in the other fields. -/
def rakMoveIteration {σ : Type} (ops : RakOps) (STRICT : Bool) (buf : Scratch)
    (vcom : List Nat) (x : Graph)
    (fa : σ → List Nat → Nat → Bool) (fp : σ → List Nat → Nat → σ) (env : σ) :
    MoveState σ :=
  rakMoveFrom ops STRICT x fa fp x.keys { buf := buf, vcom := vcom, a := 0, env := env }

/-! ## `rakSeq` -/

/-- What the timed lambda of `rakSeq` reads and writes: the counter `l`, the
buffers, the assignment and the callback state. -/
structure SeqState (σ : Type) where
  l : Int
  buf : Scratch
  vcom : List Nat
  env : σ

/-- Number of halvings that take `n` below `2`, at most `fuel` of them. -/
def log2Halvings : Nat → Nat → Nat
  | 0, _ => 0
  | fuel + 1, n => if 2 ≤ n then log2Halvings fuel (n / 2) + 1 else 0

/-- Position of the leading binary digit of `n`: the greatest `k` with
`2 ^ k ≤ n`, for `n ≥ 1`. -/
def log2Nat (n : Nat) : Nat := log2Halvings n n

/-- Greatest `k` with `2 ^ k ≤ q`, for a positive rational `q`: the binary
exponent of `q`. -/
def log2Floor (q : ℚ) : Int :=
  let k0 : Int := (log2Nat q.num.natAbs : Int) - (log2Nat q.den : Int)
  if (2 : ℚ) ^ k0 ≤ q then k0 else k0 - 1

/-- Nearest integer to `r`, a tie going to the even neighbour. -/
def roundHalfEven (r : ℚ) : Int :=
  if r - ⌊r⌋ < 1 / 2 then ⌊r⌋
  else if 1 / 2 < r - ⌊r⌋ then ⌊r⌋ + 1
  else if ⌊r⌋ % 2 = 0 then ⌊r⌋ else ⌊r⌋ + 1

/-- Nearest number with a 53-bit significand to a positive rational `q`,
ties to even. -/
def roundBinary64Pos (q : ℚ) : ℚ :=
  (roundHalfEven (q / (2 : ℚ) ^ (log2Floor q - 52)) : ℚ) * (2 : ℚ) ^ (log2Floor q - 52)

/-- The `double` nearest to the real number `q` (IEEE 754 binary64, round to
nearest, ties to even).  The exponent range is not bounded: quotients of
vertex counts lie far inside it, and a tolerance outside it compares with
them the same way. -/
def roundBinary64 (q : ℚ) : ℚ :=
  if q = 0 then 0 else if 0 < q then roundBinary64Pos q else - roundBinary64Pos (-q)

/-- The test `double(n)/N <= o.tolerance` of line 62, in double arithmetic:
the quotient is rounded to the nearest double and compared with the double
that holds the tolerance.  The counts `n` and `N` are numbers of vertices of
a graph held in memory, below `2 ^ 53`, so their conversion to `double` is
exact.  For `N = 0` the quotient is NaN or infinite and the comparison is
false. -/
def ratioLeTol (n N : Nat) (tol : ℚ) : Bool :=
  decide (N ≠ 0) && decide (roundBinary64 ((n : ℚ) / (N : ℚ)) ≤ roundBinary64 tol)

/-- One trip through the loop body (lines 60-61): a pass, then `++l`.
Returns the number of changes and the new state. -/
def rakSeqPass {σ : Type} (ops : RakOps) (STRICT : Bool) (x : Graph)
    (fa : σ → List Nat → Nat → Bool) (fp : σ → List Nat → Nat → σ)
    (s : SeqState σ) : Nat × SeqState σ :=
  let r := rakMoveIteration ops STRICT s.buf s.vcom x fa fp s.env
  (r.a, { l := s.l + 1, buf := r.buf, vcom := r.vcom, env := r.env })

/-- The loop `for (l=0; l<o.maxIterations;) { pass; ++l; if (..) break; }`
(lines 59-63).  The first argument is the number of iterations the cap still
allows, `o.maxIterations - l`. -/
def rakSeqLoop {σ : Type} (ops : RakOps) (STRICT : Bool) (x : Graph) (tol : ℚ)
    (fa : σ → List Nat → Nat → Bool) (fp : σ → List Nat → Nat → σ) :
    Nat → SeqState σ → SeqState σ
  | 0, s => s
  | k + 1, s =>
    let p := rakSeqPass ops STRICT x fa fp s
    if ratioLeTol p.1 x.order tol = true then p.2
    else rakSeqLoop ops STRICT x tol fa fp k p.2

/-- The lambda handed to `measureDuration` (lines 57-64): initialise, then
iterate. -/
def rakSeqBody {σ : Type} (ops : RakOps) (STRICT : Bool) (x : Graph) (o : RakOptions)
    (fa : σ → List Nat → Nat → Bool) (fp : σ → List Nat → Nat → σ)
    (s : SeqState σ) : SeqState σ :=
  rakSeqLoop ops STRICT x o.tolerance fa fp o.maxIterations.toNat
    { l := 0, buf := s.buf, vcom := ops.initCommunities s.vcom x, env := s.env }

/-- Modelled from the spec: `measureDuration(fn, repeat)` (defined in
`_main.hxx`) executes `fn` `repeat` times in sequence on the same captured
variables; the time it returns is left out. -/
def measureDuration {α : Type} (fn : α → α) (n : Int) (s : α) : α :=
  Nat.iterate fn n.toNat s

/-- Locals of `rakSeq` before the timed lambda runs (lines 52-56):
`l = 0`, `vcom(S)` and `vcout(S)` value-initialised, `vcs` empty. -/
def rakSeqInit {σ : Type} (x : Graph) (env : σ) : SeqState σ :=
  { l := 0, buf := { vcs := [], vcout := List.replicate x.span 0 },
    vcom := List.replicate x.span 0, env := env }

/-- State of the locals of `rakSeq` when `measureDuration` returns. -/
def rakSeqFinal {σ : Type} (ops : RakOps) (STRICT : Bool) (x : Graph)
    (q : Option (List Nat)) (o : RakOptions)
    (fa : σ → List Nat → Nat → Bool) (fp : σ → List Nat → Nat → σ) (env : σ) :
    SeqState σ :=
  let _ := q
  measureDuration (rakSeqBody ops STRICT x o fa fp) o.repeatCount (rakSeqInit x env)

/-- The five-argument `rakSeq` (lines 50-66).  `q` is the pointer to the
prior assignment (`none` for `nullptr`). -/
def rakSeq {σ : Type} (ops : RakOps) (STRICT : Bool) (x : Graph)
    (q : Option (List Nat)) (o : RakOptions)
    (fa : σ → List Nat → Nat → Bool) (fp : σ → List Nat → Nat → σ) (env : σ) :
    RakResult :=
  let s := rakSeqFinal ops STRICT x q o fa fp env
  { membership := s.vcom, iterations := s.l }

/-- State after `j` consecutive passes from `s`, each followed by `++l`, with
no convergence test in between. -/
def rakSeqPasses {σ : Type} (ops : RakOps) (STRICT : Bool) (x : Graph)
    (fa : σ → List Nat → Nat → Bool) (fp : σ → List Nat → Nat → σ) :
    Nat → SeqState σ → SeqState σ
  | 0, s => s
  | j + 1, s => rakSeqPasses ops STRICT x fa fp j (rakSeqPass ops STRICT x fa fp s).2

/-- Number of changes `n` that the `j`-th pass from `s` returns (`j ≥ 1`). -/
def rakSeqChanged {σ : Type} (ops : RakOps) (STRICT : Bool) (x : Graph)
    (fa : σ → List Nat → Nat → Bool) (fp : σ → List Nat → Nat → σ)
    (j : Nat) (s : SeqState σ) : Nat :=
  (rakSeqPass ops STRICT x fa fp (rakSeqPasses ops STRICT x fa fp (j - 1) s)).1

/-- The callback of the four-argument `rakSeq`: `[](auto u) {}`. -/
def noCallback {σ : Type} (s : σ) (_ : List Nat) (_ : Nat) : σ := s

/-- An active predicate that reads a fixed array: it ignores the callback
state and the assignment. -/
def fixedActive {σ : Type} (f : Nat → Bool) (_ : σ) (_ : List Nat) (u : Nat) : Bool := f u

/-- The four-argument `rakSeq` (lines 67-71): `fp` does nothing. -/
def rakSeqFa {σ : Type} (ops : RakOps) (STRICT : Bool) (x : Graph)
    (q : Option (List Nat)) (o : RakOptions)
    (fa : σ → List Nat → Nat → Bool) (env : σ) : RakResult :=
  rakSeq ops STRICT x q o fa noCallback env

/-- The three-argument `rakSeq` (lines 72-76): every vertex is active. -/
def rakSeqAll (ops : RakOps) (STRICT : Bool) (x : Graph)
    (q : Option (List Nat)) (o : RakOptions) : RakResult :=
  rakSeqFa ops STRICT x q o (fixedActive (fun _ => true)) ()

/-- State in which the loop of the last execution of the timed lambda starts:
the earlier executions are done, `l` is reset and the assignment initialised. -/
def rakSeqStart {σ : Type} (ops : RakOps) (STRICT : Bool) (x : Graph) (o : RakOptions)
    (fa : σ → List Nat → Nat → Bool) (fp : σ → List Nat → Nat → σ) (env : σ) :
    SeqState σ :=
  let s := measureDuration (rakSeqBody ops STRICT x o fa fp) (o.repeatCount - 1)
    (rakSeqInit x env)
  { l := 0, buf := s.buf, vcom := ops.initCommunities s.vcom x, env := s.env }

/-! ## Entry points -/

/-- `rakSeqStatic` (lines 84-87). -/
def rakSeqStatic (ops : RakOps) (STRICT : Bool) (x : Graph)
    (q : Option (List Nat)) (o : RakOptions) : RakResult :=
  rakSeqAll ops STRICT x q o

/-- The active predicate `vaff[u]==true` over a flag array. -/
def isAffected (vaff : List Bool) (u : Nat) : Bool := vaff.getD u false == true

/-- `rakSeqDynamicDeltaScreening` (lines 95-101).  `q` is dereferenced on
line 97, so it is a vector here; the flag array is computed once and only
read afterwards. -/
def rakSeqDynamicDeltaScreening (ops : RakOps) (STRICT : Bool) (x : Graph)
    (deletions : Deletions) (insertions : Insertions) (q : List Nat)
    (o : RakOptions) : RakResult :=
  let vcom := q
  let vaff := ops.affectedDeltaScreening STRICT x deletions insertions vcom
  rakSeqFa ops STRICT x (some q) o (fixedActive (isAffected vaff)) ()

/-- The callback `fp` of the frontier mode (line 114): flag every neighbour
of `u`. -/
def frontierMark (x : Graph) (vaff : List Bool) (u : Nat) : List Bool :=
  (x.edgeKeys u).foldl (fun b v => b.set v true) vaff

/-- Active predicate of the frontier mode (line 113). -/
def frontierFa (b : List Bool) (_ : List Nat) (u : Nat) : Bool := isAffected b u

/-- Callback of the frontier mode (line 114) in the shape `rakSeq` takes. -/
def frontierFp (x : Graph) (b : List Bool) (_ : List Nat) (u : Nat) : List Bool :=
  frontierMark x b u

/-- Locals of `rakSeq` when the frontier run ends, with the flag array `vaff`
as callback state. -/
def rakSeqDynamicFrontierFinal (ops : RakOps) (STRICT : Bool) (x : Graph)
    (deletions : Deletions) (insertions : Insertions) (q : List Nat)
    (o : RakOptions) : SeqState (List Bool) :=
  let vcom := q
  let vaff := ops.affectedFrontier x deletions insertions vcom
  rakSeqFinal ops STRICT x (some q) o frontierFa (frontierFp x) vaff

/-- `rakSeqDynamicFrontier` (lines 109-116). -/
def rakSeqDynamicFrontier (ops : RakOps) (STRICT : Bool) (x : Graph)
    (deletions : Deletions) (insertions : Insertions) (q : List Nat)
    (o : RakOptions) : RakResult :=
  let vcom := q
  let vaff := ops.affectedFrontier x deletions insertions vcom
  rakSeq ops STRICT x (some q) o frontierFa (frontierFp x) vaff

/-! ## Helpers of `rak.hxx`, written from the specification -/

/-- Modelled from the spec: `rakInitialize(vcom, x)` (defined in `rak.hxx`)
sets `community[u] = u` for every vertex `u` of the graph. -/
def rakInitialize (vcom : List Nat) (x : Graph) : List Nat :=
  x.keys.foldl (fun v u => v.set u u) vcom

/-- Modelled from the spec: `rakClearScan(vcs, vcout)` (defined in `rak.hxx`)
empties both buffers: no candidate, every accumulated weight zero. -/
def rakClearScan (buf : Scratch) : Scratch :=
  { vcs := [], vcout := List.replicate buf.vcout.length 0 }

/-- Accumulate the weight `w` of one edge into the entry of community `c`. -/
def scanAdd (vcout : List ℚ) (c : Nat) (w : ℚ) : List ℚ :=
  vcout.set c (vcout.getD c 0 + w)

/-- Append `c` to the candidate list unless it is already there. -/
def scanPush (vcs : List Nat) (c : Nat) : List Nat :=
  if c ∈ vcs then vcs else vcs ++ [c]

/-- Modelled from the spec: `rakScanCommunities(vcs, vcout, x, u, vcom)`
(defined in `rak.hxx`).  Every neighbour `v` of `u` with edge weight `w`
adds `w` to the entry of `community[v]` (a self-loop adds to
`community[u]`); the candidate list receives, without duplicates and in
order of first encounter, the neighbouring communities whose accumulated
weight is not zero. -/
def rakScanCommunities (buf : Scratch) (x : Graph) (u : Nat) (vcom : List Nat) : Scratch :=
  let vcout := (x.edges u).foldl (fun b e => scanAdd b (vcom.getD e.1 0) e.2) buf.vcout
  let seen := (x.edges u).foldl (fun cs e => scanPush cs (vcom.getD e.1 0)) buf.vcs
  { vcs := seen.filter (fun c => decide (vcout.getD c 0 ≠ 0)), vcout := vcout }

/-- Candidate `c` replaces the running best `b` when it is heavier, or equally
heavy with a smaller id (the tie-break the specification recommends). -/
def chooseStep (vcout : List ℚ) (b : Nat × ℚ) (c : Nat) : Nat × ℚ :=
  let w := vcout.getD c 0
  if b.2 < w ∨ (w = b.2 ∧ c < b.1) then (c, w) else b

/-- Modelled from the spec: `rakChooseCommunity<STRICT>(x, u, vcom, vcs, vcout)`
(defined in `rak.hxx`).  With no scanned candidate it returns the sentinel
`0`.  Otherwise the current community `d` is an implicit candidate and the
heaviest candidate wins, ties going to the smallest id; in strict mode `d`
is returned unless some candidate is strictly heavier than `d`. -/
def rakChooseCommunity (STRICT : Bool) (_x : Graph) (u : Nat) (vcom : List Nat)
    (buf : Scratch) : Nat × ℚ :=
  let d := vcom.getD u 0
  let wd := buf.vcout.getD d 0
  match buf.vcs with
  | [] => (0, 0)
  | c :: cs =>
    let best := (c :: cs).foldl (chooseStep buf.vcout) (d, wd)
    if STRICT = true then (if wd < best.2 then best else (d, wd)) else best

/-- Flag the two endpoints of every edge of an edit. -/
def markEndpoints (vaff : List Bool) (deletions : Deletions) (insertions : Insertions) :
    List Bool :=
  let vaff := deletions.foldl (fun b e => (b.set e.1 true).set e.2 true) vaff
  insertions.foldl (fun b e => (b.set e.1 true).set e.2.1 true) vaff

/-- Modelled from the spec: `rakAffectedVerticesDeltaScreening<STRICT>`
(defined in `rak.hxx`), in the baseline form the specification gives: a flag
array over the id domain, true exactly at the endpoints of the deleted and
inserted edges. -/
def rakAffectedVerticesDeltaScreening (_STRICT : Bool) (x : Graph) (deletions : Deletions)
    (insertions : Insertions) (_vcom : List Nat) : List Bool :=
  markEndpoints (List.replicate x.span false) deletions insertions

/-- Modelled from the spec: `rakAffectedVerticesFrontier` (defined in
`rak.hxx`): the same seed set as delta-screening. -/
def rakAffectedVerticesFrontier (x : Graph) (deletions : Deletions)
    (insertions : Insertions) (_vcom : List Nat) : List Bool :=
  markEndpoints (List.replicate x.span false) deletions insertions

/-- The helpers written from the specification, bundled. -/
def specOps : RakOps :=
  { initCommunities := rakInitialize
    clearScan := rakClearScan
    scanCommunities := rakScanCommunities
    chooseCommunity := rakChooseCommunity
    affectedDeltaScreening := rakAffectedVerticesDeltaScreening
    affectedFrontier := rakAffectedVerticesFrontier }

/-! ## Which vertices a pass visits as active -/

/-- The vertices of `ks` that a pass from `st` visits with `fa` true, in
order: `u` is listed when `fa(u)` holds in the state in which `u` is
reached (line 34). -/
def rakActiveVisits {σ : Type} (ops : RakOps) (STRICT : Bool) (x : Graph)
    (fa : σ → List Nat → Nat → Bool) (fp : σ → List Nat → Nat → σ) :
    List Nat → MoveState σ → List Nat
  | [], _ => []
  | u :: ks, st =>
    (if fa st.env st.vcom u = true then [u] else []) ++
      rakActiveVisits ops STRICT x fa fp ks (rakMoveVisit ops STRICT x fa fp st u)

/-- The vertices visited as active by the pass that `rakSeqPass` runs from
`s`. -/
def rakSeqPassVisits {σ : Type} (ops : RakOps) (STRICT : Bool) (x : Graph)
    (fa : σ → List Nat → Nat → Bool) (fp : σ → List Nat → Nat → σ)
    (s : SeqState σ) : List Nat :=
  rakActiveVisits ops STRICT x fa fp x.keys
    { buf := s.buf, vcom := s.vcom, a := 0, env := s.env }

/-- The vertices visited as active by the passes of `rakSeqLoop`, pass after
pass. -/
def rakSeqLoopVisits {σ : Type} (ops : RakOps) (STRICT : Bool) (x : Graph) (tol : ℚ)
    (fa : σ → List Nat → Nat → Bool) (fp : σ → List Nat → Nat → σ) :
    Nat → SeqState σ → List Nat
  | 0, _ => []
  | k + 1, s =>
    let p := rakSeqPass ops STRICT x fa fp s
    if ratioLeTol p.1 x.order tol = true then rakSeqPassVisits ops STRICT x fa fp s
    else rakSeqPassVisits ops STRICT x fa fp s ++
      rakSeqLoopVisits ops STRICT x tol fa fp k p.2

/-- The vertices visited as active by one execution of the timed lambda. -/
def rakSeqBodyVisits {σ : Type} (ops : RakOps) (STRICT : Bool) (x : Graph) (o : RakOptions)
    (fa : σ → List Nat → Nat → Bool) (fp : σ → List Nat → Nat → σ)
    (s : SeqState σ) : List Nat :=
  rakSeqLoopVisits ops STRICT x o.tolerance fa fp o.maxIterations.toNat
    { l := 0, buf := s.buf, vcom := ops.initCommunities s.vcom x, env := s.env }

/-- The vertices visited as active by `r` executions of the timed lambda in
sequence, from `s`. -/
def rakSeqRunVisits {σ : Type} (ops : RakOps) (STRICT : Bool) (x : Graph) (o : RakOptions)
    (fa : σ → List Nat → Nat → Bool) (fp : σ → List Nat → Nat → σ) :
    Nat → SeqState σ → List Nat
  | 0, _ => []
  | r + 1, s =>
    rakSeqBodyVisits ops STRICT x o fa fp s ++
      rakSeqRunVisits ops STRICT x o fa fp r (rakSeqBody ops STRICT x o fa fp s)

/-- The vertices visited as active, at any point, by a whole run of
`rakSeqDynamicFrontier`. -/
def rakSeqDynamicFrontierVisits (ops : RakOps) (STRICT : Bool) (x : Graph)
    (deletions : Deletions) (insertions : Insertions) (q : List Nat)
    (o : RakOptions) : List Nat :=
  rakSeqRunVisits ops STRICT x o frontierFa (frontierFp x) o.repeatCount.toNat
    (rakSeqInit x (ops.affectedFrontier x deletions insertions q))

/-- The fixed active set of a `rakSeqDynamicDeltaScreening` run: the vertices
its flag array marks. -/
def deltaScreeningActive (ops : RakOps) (STRICT : Bool) (x : Graph)
    (deletions : Deletions) (insertions : Insertions) (q : List Nat) (u : Nat) : Bool :=
  isAffected (ops.affectedDeltaScreening STRICT x deletions insertions q) u

/-- Number of changes a static pass returns from assignment `vcom`, with the
helpers written from the specification. -/
def staticChanges (STRICT : Bool) (x : Graph) (vcom : List Nat) : Nat :=
  (rakMoveIteration specOps STRICT
    { vcs := [], vcout := List.replicate x.span 0 } vcom x
    (fixedActive (fun _ => true)) (noCallback (σ := Unit)) ()).a

/-! ## Example inputs -/

/-- The weighted path `1 - 2 - 3 - 4` with weights `3, 2, 1`, symmetric, on
the id domain `[0, 5)`; id `0` is not a vertex. -/
def path4 : Graph :=
  { span := 5
    keys := [1, 2, 3, 4]
    edges := fun u =>
      match u with
      | 1 => [(2, 3)]
      | 2 => [(1, 3), (3, 2)]
      | 3 => [(2, 2), (4, 1)]
      | 4 => [(3, 1)]
      | _ => [] }

/-- A symmetric graph on the vertices `1 .. 5` (id domain `[0, 6)`): edges
`1 - 2` and `1 - 3` of weight `2`, `1 - 4` of weight `4`, `2 - 3` of weight
`1` and `4 - 5` of weight `10`. -/
def tieGraph : Graph :=
  { span := 6
    keys := [1, 2, 3, 4, 5]
    edges := fun u =>
      match u with
      | 1 => [(2, 2), (3, 2), (4, 4)]
      | 2 => [(1, 2), (3, 1)]
      | 3 => [(1, 2), (2, 1)]
      | 4 => [(1, 4), (5, 10)]
      | 5 => [(4, 10)]
      | _ => [] }

/-- An assignment on `tieGraph`: vertices `2`, `3` in community `2`, vertices
`1`, `4`, `5` in community `5`.  Vertex `1` is tied between the two. -/
def tieStart : List Nat := [0, 5, 2, 2, 5, 5]

/-- The symmetric path `0 - 1 - 2 - 3` with unit weights and no self-loop, on
the id domain `[0, 4)`. -/
def path0123 : Graph :=
  { span := 4
    keys := [0, 1, 2, 3]
    edges := fun u =>
      match u with
      | 0 => [(1, 1)]
      | 1 => [(0, 1), (2, 1)]
      | 2 => [(1, 1), (3, 1)]
      | 3 => [(2, 1)]
      | _ => [] }

/-- Scratch buffers as `rakSeq` allocates them for `path4`: no candidate,
five zero weights. -/
def buf5 : Scratch := { vcs := [], vcout := [0, 0, 0, 0, 0] }

/-- A run configuration: one execution, tolerance `0`, cap `10`. -/
def opts10 : RakOptions := { repeatCount := 1, tolerance := 0, maxIterations := 10 }

/-- A run configuration whose cap allows no pass. -/
def opts0 : RakOptions := { repeatCount := 1, tolerance := 0, maxIterations := 0 }

/-- The configuration `opts10` with the timed body executed twice. -/
def opts10twice : RakOptions := { repeatCount := 2, tolerance := 0, maxIterations := 10 }

/-- A run configuration: one execution, tolerance `1/2`, cap `10`. -/
def optsHalf : RakOptions := { repeatCount := 1, tolerance := 1 / 2, maxIterations := 10 }

/-- The weighted path `1 - 2 - 3 - 4 - 5` with weights `4, 3, 2, 1`,
symmetric, on the id domain `[0, 6)`; id `0` is not a vertex. -/
def path5 : Graph :=
  { span := 6
    keys := [1, 2, 3, 4, 5]
    edges := fun u =>
      match u with
      | 1 => [(2, 4)]
      | 2 => [(1, 4), (3, 3)]
      | 3 => [(2, 3), (4, 2)]
      | 4 => [(3, 2), (5, 1)]
      | 5 => [(4, 1)]
      | _ => [] }

/-- The edit that inserted the edge `4 - 5` (weight `1`) of `path5`. -/
def insert45 : Insertions := [(4, 5, 1)]

/-- A run configuration: two executions, tolerance `0`, cap `2`. -/
def optsTwiceCap2 : RakOptions := { repeatCount := 2, tolerance := 0, maxIterations := 2 }

/-- A run configuration: two executions, tolerance `0`, cap `3`. -/
def optsTwiceCap3 : RakOptions := { repeatCount := 2, tolerance := 0, maxIterations := 3 }

/-- The edit that inserted the edge `2 - 3` (weight `2`) of `path4`. -/
def insert23 : Insertions := [(2, 3, 2)]

/-- An active predicate over a call log that admits every vertex. -/
def allActive (_ : List Nat) (_ : List Nat) (_ : Nat) : Bool := true

/-- A callback that records the vertices it is invoked with, in order. -/
def logCall (log : List Nat) (_ : List Nat) (u : Nat) : List Nat := log ++ [u]

/-- The seed set of the edit that inserts the edge `2 - 3`: vertices `2`, `3`. -/
def seed23 (u : Nat) : Bool := u == 2 || u == 3

/-- The active predicate of delta-screening after the empty edit. -/
def noneActive (_ : Unit) (_ : List Nat) (_ : Nat) : Bool := false

/-! ## Basic facts about a pass -/

theorem rakMoveFrom_nil {σ : Type} (ops : RakOps) (STRICT : Bool) (x : Graph)
    (fa : σ → List Nat → Nat → Bool) (fp : σ → List Nat → Nat → σ) (st : MoveState σ) :
    rakMoveFrom ops STRICT x fa fp [] st = st := rfl

theorem rakMoveFrom_cons {σ : Type} (ops : RakOps) (STRICT : Bool) (x : Graph)
    (fa : σ → List Nat → Nat → Bool) (fp : σ → List Nat → Nat → σ) (u : Nat)
    (ks : List Nat) (st : MoveState σ) :
    rakMoveFrom ops STRICT x fa fp (u :: ks) st =
      rakMoveFrom ops STRICT x fa fp ks (rakMoveVisit ops STRICT x fa fp st u) := rfl

theorem rakMoveFrom_append {σ : Type} (ops : RakOps) (STRICT : Bool) (x : Graph)
    (fa : σ → List Nat → Nat → Bool) (fp : σ → List Nat → Nat → σ)
    (ks ks' : List Nat) (st : MoveState σ) :
    rakMoveFrom ops STRICT x fa fp (ks ++ ks') st =
      rakMoveFrom ops STRICT x fa fp ks' (rakMoveFrom ops STRICT x fa fp ks st) := by
  simp [rakMoveFrom, List.foldl_append]

/-- A visit of an inactive vertex is the identity on the whole state. -/
theorem rakMoveVisit_inactive {σ : Type} (ops : RakOps) (STRICT : Bool) (x : Graph)
    (fa : σ → List Nat → Nat → Bool) (fp : σ → List Nat → Nat → σ)
    (st : MoveState σ) (u : Nat) (h : fa st.env st.vcom u = false) :
    rakMoveVisit ops STRICT x fa fp st u = st := by
  simp [rakMoveVisit, h]

/-- A visit of an active vertex whose candidate is accepted. -/
theorem rakMoveVisit_moved {σ : Type} (ops : RakOps) (STRICT : Bool) (x : Graph)
    (fa : σ → List Nat → Nat → Bool) (fp : σ → List Nat → Nat → σ)
    (st : MoveState σ) (u : Nat) (h : fa st.env st.vcom u = true)
    (hc : rakCandidate ops STRICT x st.buf st.vcom u ≠ 0 ∧
      rakCandidate ops STRICT x st.buf st.vcom u ≠ st.vcom.getD u 0) :
    rakMoveVisit ops STRICT x fa fp st u =
      { buf := ops.scanCommunities (ops.clearScan st.buf) x u st.vcom
        vcom := st.vcom.set u (rakCandidate ops STRICT x st.buf st.vcom u)
        a := st.a + 1
        env := fp st.env (st.vcom.set u (rakCandidate ops STRICT x st.buf st.vcom u)) u } := by
  unfold rakCandidate at hc ⊢
  unfold rakMoveVisit
  rw [if_neg (by rw [h]; decide)]
  dsimp only
  rw [if_pos hc]

/-- A visit of an active vertex whose candidate is rejected. -/
theorem rakMoveVisit_stayed {σ : Type} (ops : RakOps) (STRICT : Bool) (x : Graph)
    (fa : σ → List Nat → Nat → Bool) (fp : σ → List Nat → Nat → σ)
    (st : MoveState σ) (u : Nat) (h : fa st.env st.vcom u = true)
    (hc : ¬ (rakCandidate ops STRICT x st.buf st.vcom u ≠ 0 ∧
      rakCandidate ops STRICT x st.buf st.vcom u ≠ st.vcom.getD u 0)) :
    rakMoveVisit ops STRICT x fa fp st u =
      { buf := ops.scanCommunities (ops.clearScan st.buf) x u st.vcom
        vcom := st.vcom, a := st.a, env := st.env } := by
  unfold rakCandidate at hc
  unfold rakMoveVisit
  rw [if_neg (by rw [h]; decide)]
  dsimp only
  rw [if_neg hc]

/-! ## C1: the per-vertex move rule -/

/-- C1: per-vertex move rule of `rakMoveIteration`.  Split the vertex order
as `pre ++ u :: post`, let `st` be the state when `u` is reached and `st'`
the state when its visit ends; the pass continues from `st'`.  If `u` is
active, with `d` its community in `st` and `c` the Community Choice result
on the assignment of `st`: when `c ≠ 0` and `c ≠ d` the assignment becomes
`st.vcom` with `u` set to `c`, the counter grows by exactly one and the
callback state is `fp` applied once, to the assignment after the write;
otherwise (in particular when `c = 0`) assignment, counter and callback
state are those of `st`, so `fp` was not invoked. -/
theorem rakMoveIteration_move_rule {σ : Type} (ops : RakOps) (STRICT : Bool)
    (buf : Scratch) (vcom : List Nat) (x : Graph)
    (fa : σ → List Nat → Nat → Bool) (fp : σ → List Nat → Nat → σ) (env : σ)
    (pre post : List Nat) (u : Nat) (hkeys : x.keys = pre ++ u :: post) :
    let st := rakMoveFrom ops STRICT x fa fp pre { buf := buf, vcom := vcom, a := 0, env := env }
    let st' := rakMoveFrom ops STRICT x fa fp (pre ++ [u])
      { buf := buf, vcom := vcom, a := 0, env := env }
    let d := st.vcom.getD u 0
    let c := rakCandidate ops STRICT x st.buf st.vcom u
    rakMoveIteration ops STRICT buf vcom x fa fp env = rakMoveFrom ops STRICT x fa fp post st' ∧
    (fa st.env st.vcom u = true →
      (c ≠ 0 ∧ c ≠ d →
        st'.vcom = st.vcom.set u c ∧ (u < st.vcom.length → st'.vcom.getD u 0 = c) ∧
        st'.a = st.a + 1 ∧ st'.env = fp st.env (st.vcom.set u c) u) ∧
      (¬ (c ≠ 0 ∧ c ≠ d) →
        st'.vcom = st.vcom ∧ st'.vcom.getD u 0 = d ∧ st'.a = st.a ∧ st'.env = st.env) ∧
      (c = 0 → st'.vcom = st.vcom ∧ st'.a = st.a ∧ st'.env = st.env)) := by
  intro st st' d c
  have hst' : st' = rakMoveVisit ops STRICT x fa fp st u := by
    simp only [st', st, rakMoveFrom_append, rakMoveFrom_cons, rakMoveFrom_nil]
  refine ⟨?_, ?_⟩
  · rw [rakMoveIteration, hkeys, hst']
    simp only [st, rakMoveFrom_append, rakMoveFrom_cons]
  · intro hact
    have hstay : ¬ (c ≠ 0 ∧ c ≠ d) →
        st'.vcom = st.vcom ∧ st'.vcom.getD u 0 = d ∧ st'.a = st.a ∧ st'.env = st.env := by
      intro hc
      rw [hst', rakMoveVisit_stayed ops STRICT x fa fp st u hact hc]
      exact ⟨rfl, rfl, rfl, rfl⟩
    refine ⟨?_, hstay, ?_⟩
    · intro hc
      rw [hst', rakMoveVisit_moved ops STRICT x fa fp st u hact hc]
      refine ⟨rfl, ?_, rfl, rfl⟩
      intro hu
      simp [List.getD_eq_getElem?_getD, List.getElem?_set, hu, c]
    · intro hc0
      have h := hstay (fun h => h.1 hc0)
      exact ⟨h.1, h.2.2.1, h.2.2.2⟩

/-- Witness for C1 on the path `1 - 2 - 3 - 4`, at the visit of vertex `3`
after vertices `1` and `2`, with every vertex active and a callback that
logs its calls; the visit is an accepted move into community `2`. -/
theorem rakMoveIteration_move_rule_witness :
    path4.keys = [1, 2] ++ 3 :: [4] ∧
    (let st := rakMoveFrom specOps false path4 allActive logCall [1, 2]
        { buf := buf5, vcom := [0, 1, 2, 3, 4], a := 0, env := [] }
     let st' := rakMoveFrom specOps false path4 allActive logCall ([1, 2] ++ [3])
        { buf := buf5, vcom := [0, 1, 2, 3, 4], a := 0, env := [] }
     let d := st.vcom.getD 3 0
     let c := rakCandidate specOps false path4 st.buf st.vcom 3
     rakMoveIteration specOps false buf5 [0, 1, 2, 3, 4] path4 allActive logCall [] =
        rakMoveFrom specOps false path4 allActive logCall [4] st' ∧
     (allActive st.env st.vcom 3 = true →
      (c ≠ 0 ∧ c ≠ d →
        st'.vcom = st.vcom.set 3 c ∧ (3 < st.vcom.length → st'.vcom.getD 3 0 = c) ∧
        st'.a = st.a + 1 ∧ st'.env = logCall st.env (st.vcom.set 3 c) 3) ∧
      (¬ (c ≠ 0 ∧ c ≠ d) →
        st'.vcom = st.vcom ∧ st'.vcom.getD 3 0 = d ∧ st'.a = st.a ∧ st'.env = st.env) ∧
      (c = 0 → st'.vcom = st.vcom ∧ st'.a = st.a ∧ st'.env = st.env))) :=
  ⟨rfl, rakMoveIteration_move_rule specOps false buf5 [0, 1, 2, 3, 4] path4
    allActive logCall [] [1, 2] [4] 3 rfl⟩

/-! ## C2: the return value counts the changed vertices -/

theorem rakMoveVisit_length {σ : Type} (ops : RakOps) (STRICT : Bool) (x : Graph)
    (fa : σ → List Nat → Nat → Bool) (fp : σ → List Nat → Nat → σ)
    (st : MoveState σ) (u : Nat) :
    (rakMoveVisit ops STRICT x fa fp st u).vcom.length = st.vcom.length := by
  unfold rakMoveVisit
  split
  · rfl
  · dsimp only
    split
    · simp
    · rfl

/-- A visit of `u` does not touch the community of any other vertex. -/
theorem rakMoveVisit_getD_of_ne {σ : Type} (ops : RakOps) (STRICT : Bool) (x : Graph)
    (fa : σ → List Nat → Nat → Bool) (fp : σ → List Nat → Nat → σ)
    (st : MoveState σ) (u v : Nat) (hne : v ≠ u) :
    (rakMoveVisit ops STRICT x fa fp st u).vcom.getD v 0 = st.vcom.getD v 0 := by
  unfold rakMoveVisit
  split
  · rfl
  · dsimp only
    split
    · simp [List.getD_eq_getElem?_getD, List.getElem?_set, Ne.symm hne]
    · rfl

/-- The counter grows by one at a visit exactly when the visited vertex, a
valid index of the assignment, ends the visit in another community. -/
theorem rakMoveVisit_count {σ : Type} (ops : RakOps) (STRICT : Bool) (x : Graph)
    (fa : σ → List Nat → Nat → Bool) (fp : σ → List Nat → Nat → σ)
    (st : MoveState σ) (u : Nat) (hu : u < st.vcom.length) :
    (rakMoveVisit ops STRICT x fa fp st u).a = st.a +
      (if (rakMoveVisit ops STRICT x fa fp st u).vcom.getD u 0 ≠ st.vcom.getD u 0
        then 1 else 0) := by
  unfold rakMoveVisit
  split
  · simp
  · dsimp only
    split
    · rename_i hc
      simp [List.getD_eq_getElem?_getD, List.getElem?_set, hu] at hc ⊢
      rw [if_neg hc.2]
    · simp

theorem rakMoveFrom_length {σ : Type} (ops : RakOps) (STRICT : Bool) (x : Graph)
    (fa : σ → List Nat → Nat → Bool) (fp : σ → List Nat → Nat → σ)
    (ks : List Nat) (st : MoveState σ) :
    (rakMoveFrom ops STRICT x fa fp ks st).vcom.length = st.vcom.length := by
  induction ks generalizing st with
  | nil => rfl
  | cons u ks ih => rw [rakMoveFrom_cons, ih, rakMoveVisit_length]

/-- Vertices that are not visited keep their community. -/
theorem rakMoveFrom_getD_of_not_mem {σ : Type} (ops : RakOps) (STRICT : Bool) (x : Graph)
    (fa : σ → List Nat → Nat → Bool) (fp : σ → List Nat → Nat → σ)
    (ks : List Nat) (st : MoveState σ) (v : Nat) (hv : v ∉ ks) :
    (rakMoveFrom ops STRICT x fa fp ks st).vcom.getD v 0 = st.vcom.getD v 0 := by
  induction ks generalizing st with
  | nil => rfl
  | cons u ks ih =>
    rw [rakMoveFrom_cons, ih _ (fun h => hv (List.mem_cons_of_mem _ h))]
    exact rakMoveVisit_getD_of_ne ops STRICT x fa fp st u v
      (fun h => hv (h ▸ List.mem_cons_self _ _))

/-- Over a duplicate-free vertex list inside the assignment, the counter grows
by the number of listed vertices whose community differs at the end. -/
theorem rakMoveFrom_count {σ : Type} (ops : RakOps) (STRICT : Bool) (x : Graph)
    (fa : σ → List Nat → Nat → Bool) (fp : σ → List Nat → Nat → σ)
    (ks : List Nat) (st : MoveState σ) (hnd : ks.Nodup)
    (hlt : ∀ u ∈ ks, u < st.vcom.length) :
    (rakMoveFrom ops STRICT x fa fp ks st).a = st.a +
      (ks.filter (fun u => decide
        ((rakMoveFrom ops STRICT x fa fp ks st).vcom.getD u 0 ≠ st.vcom.getD u 0))).length := by
  induction ks generalizing st with
  | nil => simp [rakMoveFrom_nil]
  | cons u ks ih =>
    have hu : u ∉ ks := (List.nodup_cons.mp hnd).1
    have hnd' : ks.Nodup := (List.nodup_cons.mp hnd).2
    have hlt' : ∀ v ∈ ks, v < (rakMoveVisit ops STRICT x fa fp st u).vcom.length := by
      intro v hv
      rw [rakMoveVisit_length]
      exact hlt v (List.mem_cons_of_mem _ hv)
    have hrest : ks.filter (fun v => decide
          ((rakMoveFrom ops STRICT x fa fp ks (rakMoveVisit ops STRICT x fa fp st u)).vcom.getD v 0
            ≠ (rakMoveVisit ops STRICT x fa fp st u).vcom.getD v 0)) =
        ks.filter (fun v => decide
          ((rakMoveFrom ops STRICT x fa fp ks (rakMoveVisit ops STRICT x fa fp st u)).vcom.getD v 0
            ≠ st.vcom.getD v 0)) := by
      apply List.filter_congr
      intro v hv
      rw [rakMoveVisit_getD_of_ne ops STRICT x fa fp st u v (fun h => hu (h ▸ hv))]
    rw [rakMoveFrom_cons, ih _ hnd' hlt', hrest,
      rakMoveVisit_count ops STRICT x fa fp st u (hlt u (List.mem_cons_self _ _)),
      List.filter_cons, rakMoveFrom_getD_of_not_mem ops STRICT x fa fp ks _ u hu]
    by_cases hch : (rakMoveVisit ops STRICT x fa fp st u).vcom.getD u 0 ≠ st.vcom.getD u 0
    · simp only [hch, if_true, decide_True, List.length_cons, ne_eq, not_false_eq_true]
      omega
    · simp only [hch, if_false, decide_False, ne_eq]
      simp

/-- C2: when `forEachVertexKey` visits each valid vertex exactly once (the
vertex order has no duplicate) and every valid vertex is an index of the
assignment, the value returned by `rakMoveIteration` is the number of valid
vertices whose community after the pass differs from its community before
the pass.  The callbacks `fa` and `fp` are arbitrary; they act on their own
captured state and do not write the assignment. -/
theorem rakMoveIteration_returns_changed {σ : Type} (ops : RakOps) (STRICT : Bool)
    (buf : Scratch) (vcom : List Nat) (x : Graph)
    (fa : σ → List Nat → Nat → Bool) (fp : σ → List Nat → Nat → σ) (env : σ)
    (hnd : x.keys.Nodup) (hlt : ∀ u ∈ x.keys, u < vcom.length) :
    (rakMoveIteration ops STRICT buf vcom x fa fp env).a =
      (x.keys.filter (fun u => decide
        ((rakMoveIteration ops STRICT buf vcom x fa fp env).vcom.getD u 0
          ≠ vcom.getD u 0))).length := by
  have h := rakMoveFrom_count ops STRICT x fa fp x.keys
    { buf := buf, vcom := vcom, a := 0, env := env } hnd hlt
  simpa [rakMoveIteration] using h

/-- Witness for C2: a static pass over the path `1 - 2 - 3 - 4` from the
singleton assignment. -/
theorem rakMoveIteration_returns_changed_witness :
    path4.keys.Nodup ∧ (∀ u ∈ path4.keys, u < [0, 1, 2, 3, 4].length) ∧
    (rakMoveIteration specOps false buf5 [0, 1, 2, 3, 4] path4 allActive logCall []).a =
      (path4.keys.filter (fun u => decide
        ((rakMoveIteration specOps false buf5 [0, 1, 2, 3, 4] path4
            allActive logCall []).vcom.getD u 0
          ≠ [0, 1, 2, 3, 4].getD u 0))).length :=
  ⟨by decide, by decide,
    rakMoveIteration_returns_changed specOps false buf5 [0, 1, 2, 3, 4] path4
      allActive logCall [] (by decide) (by decide)⟩

/-! ## C3: inactive vertices are left alone -/

/-- With `repeat ≥ 1` the final state is the loop run from `rakSeqStart`. -/
theorem rakSeqFinal_eq_loop {σ : Type} (ops : RakOps) (STRICT : Bool) (x : Graph)
    (q : Option (List Nat)) (o : RakOptions)
    (fa : σ → List Nat → Nat → Bool) (fp : σ → List Nat → Nat → σ) (env : σ)
    (hr : 1 ≤ o.repeatCount) :
    rakSeqFinal ops STRICT x q o fa fp env =
      rakSeqLoop ops STRICT x o.tolerance fa fp o.maxIterations.toNat
        (rakSeqStart ops STRICT x o fa fp env) := by
  obtain ⟨r, hrr⟩ : ∃ r : Nat, o.repeatCount = (r : Int) + 1 :=
    ⟨(o.repeatCount - 1).toNat, by omega⟩
  have h1 : o.repeatCount.toNat = r + 1 := by omega
  have h2 : (o.repeatCount - 1).toNat = r := by omega
  simp only [rakSeqFinal, rakSeqStart, measureDuration, h1, h2,
    Function.iterate_succ_apply']
  rfl

/-- A vertex that the predicate never admits keeps its community through any
sequence of visits. -/
theorem rakMoveFrom_getD_of_inactive {σ : Type} (ops : RakOps) (STRICT : Bool) (x : Graph)
    (fa : σ → List Nat → Nat → Bool) (fp : σ → List Nat → Nat → σ) (u : Nat)
    (hu : ∀ s v, fa s v u = false) (ks : List Nat) (st : MoveState σ) :
    (rakMoveFrom ops STRICT x fa fp ks st).vcom.getD u 0 = st.vcom.getD u 0 := by
  induction ks generalizing st with
  | nil => rfl
  | cons w ks ih =>
    rw [rakMoveFrom_cons, ih]
    by_cases hw : u = w
    · subst hw
      rw [rakMoveVisit_inactive ops STRICT x fa fp st u (hu _ _)]
    · exact rakMoveVisit_getD_of_ne ops STRICT x fa fp st w u hw

theorem rakSeqLoop_getD_of_inactive {σ : Type} (ops : RakOps) (STRICT : Bool) (x : Graph)
    (tol : ℚ) (fa : σ → List Nat → Nat → Bool) (fp : σ → List Nat → Nat → σ) (u : Nat)
    (hu : ∀ s v, fa s v u = false) (k : Nat) (s : SeqState σ) :
    (rakSeqLoop ops STRICT x tol fa fp k s).vcom.getD u 0 = s.vcom.getD u 0 := by
  induction k generalizing s with
  | zero => rfl
  | succ k ih =>
    have hp : (rakSeqPass ops STRICT x fa fp s).2.vcom.getD u 0 = s.vcom.getD u 0 := by
      simp only [rakSeqPass, rakMoveIteration]
      exact rakMoveFrom_getD_of_inactive ops STRICT x fa fp u hu _ _
    simp only [rakSeqLoop]
    split
    · exact hp
    · rw [ih, hp]

/-- C3: frame property.  (a) A vertex `u` whose predicate `fa` is false when
it is visited leaves the whole state as it was: its community is unchanged,
the counter is not incremented and the callback state is untouched, so `fp`
did not run.  With a fixed predicate `f` and the do-nothing callback, for a
vertex `u` with `f u = false`: (b) the assignment after a pass agrees with
the assignment before it at `u`; (c) over the whole run of `rakSeq`
(`repeat ≥ 1`) the returned community of `u` is the one it had when the
passes started; (d) the same for `rakSeqDynamicDeltaScreening` at every
vertex its flag array leaves inactive. -/
theorem rakMoveIteration_frame {σ : Type} (ops : RakOps) (STRICT : Bool) (x : Graph)
    (fa : σ → List Nat → Nat → Bool) (fp : σ → List Nat → Nat → σ)
    (f : Nat → Bool) (u : Nat) (hu : f u = false) :
    (∀ st : MoveState σ, fa st.env st.vcom u = false →
      rakMoveVisit ops STRICT x fa fp st u = st) ∧
    (∀ (buf : Scratch) (vcom : List Nat) (env : σ),
      (rakMoveIteration ops STRICT buf vcom x (fixedActive f) noCallback env).vcom.getD u 0
        = vcom.getD u 0) ∧
    (∀ (q : Option (List Nat)) (o : RakOptions) (env : σ), 1 ≤ o.repeatCount →
      (rakSeqFa ops STRICT x q o (fixedActive f) env).membership.getD u 0 =
        (rakSeqStart ops STRICT x o (fixedActive f) noCallback env).vcom.getD u 0) ∧
    (∀ (deletions : Deletions) (insertions : Insertions) (q : List Nat) (o : RakOptions),
      isAffected (ops.affectedDeltaScreening STRICT x deletions insertions q) u = false →
      1 ≤ o.repeatCount →
      (rakSeqDynamicDeltaScreening ops STRICT x deletions insertions q o).membership.getD u 0 =
        (rakSeqStart ops STRICT x o
          (fixedActive (isAffected (ops.affectedDeltaScreening STRICT x deletions insertions q)))
          noCallback ()).vcom.getD u 0) := by
  have hrun : ∀ (τ : Type) (g : Nat → Bool), g u = false →
      ∀ (q : Option (List Nat)) (o : RakOptions) (env : τ), 1 ≤ o.repeatCount →
      (rakSeqFa ops STRICT x q o (fixedActive g) env).membership.getD u 0 =
        (rakSeqStart ops STRICT x o (fixedActive g) noCallback env).vcom.getD u 0 := by
    intro τ g hg q o env hr
    simp only [rakSeqFa, rakSeq, rakSeqFinal_eq_loop ops STRICT x q o _ _ env hr]
    exact rakSeqLoop_getD_of_inactive ops STRICT x o.tolerance _ _ u (fun _ _ => hg) _ _
  refine ⟨fun st h => rakMoveVisit_inactive ops STRICT x fa fp st u h, ?_, hrun σ f hu, ?_⟩
  · intro buf vcom env
    exact rakMoveFrom_getD_of_inactive ops STRICT x _ _ u (fun _ _ => hu) _ _
  · intro deletions insertions q o hf hr
    exact hrun Unit _ hf (some q) o () hr

/-- Witness for C3: vertex `1` of the path `1 - 2 - 3 - 4` when only `2` and
`3` are active. -/
theorem rakMoveIteration_frame_witness :
    seed23 1 = false ∧
    ((∀ st : MoveState (List Nat), allActive st.env st.vcom 1 = false →
      rakMoveVisit specOps false path4 allActive logCall st 1 = st) ∧
    (∀ (buf : Scratch) (vcom : List Nat) (env : List Nat),
      (rakMoveIteration specOps false buf vcom path4 (fixedActive seed23)
          noCallback env).vcom.getD 1 0 = vcom.getD 1 0) ∧
    (∀ (q : Option (List Nat)) (o : RakOptions) (env : List Nat), 1 ≤ o.repeatCount →
      (rakSeqFa specOps false path4 q o (fixedActive seed23) env).membership.getD 1 0 =
        (rakSeqStart specOps false path4 o (fixedActive seed23) noCallback env).vcom.getD 1 0) ∧
    (∀ (deletions : Deletions) (insertions : Insertions) (q : List Nat) (o : RakOptions),
      isAffected (specOps.affectedDeltaScreening false path4 deletions insertions q) 1 = false →
      1 ≤ o.repeatCount →
      (rakSeqDynamicDeltaScreening specOps false path4 deletions insertions q o).membership.getD
          1 0 =
        (rakSeqStart specOps false path4 o
          (fixedActive
            (isAffected (specOps.affectedDeltaScreening false path4 deletions insertions q)))
          noCallback ()).vcom.getD 1 0)) :=
  ⟨by decide, rakMoveIteration_frame specOps false path4 allActive logCall seed23 1 (by decide)⟩

/-! ## C4: the stopping rule of the convergence loop -/

theorem two_zpow_pos (k : Int) : (0 : ℚ) < (2 : ℚ) ^ k := zpow_pos (by norm_num) k

theorem log2Halvings_spec (fuel n : Nat) (hn : 1 ≤ n) (hf : n ≤ fuel) :
    2 ^ log2Halvings fuel n ≤ n ∧ n < 2 ^ (log2Halvings fuel n + 1) := by
  induction fuel generalizing n with
  | zero => omega
  | succ fuel ih =>
    unfold log2Halvings
    by_cases h2 : 2 ≤ n
    · rw [if_pos h2]
      obtain ⟨i1, i2⟩ := ih (n / 2) (by omega) (by omega)
      rw [pow_succ, pow_succ]
      rw [pow_succ] at i2
      constructor <;> omega
    · rw [if_neg h2]
      have : n = 1 := by omega
      subst this
      simp

theorem log2Nat_spec (n : Nat) (hn : n ≠ 0) :
    2 ^ log2Nat n ≤ n ∧ n < 2 ^ (log2Nat n + 1) :=
  log2Halvings_spec n n (Nat.pos_of_ne_zero hn) (le_refl _)

theorem natCast_bounds (a : Nat) (ha : a ≠ 0) :
    (2 : ℚ) ^ (log2Nat a : Int) ≤ (a : ℚ) ∧ (a : ℚ) < (2 : ℚ) ^ ((log2Nat a : Int) + 1) := by
  constructor
  · rw [zpow_natCast]
    exact_mod_cast (log2Nat_spec a ha).1
  · have h : ((log2Nat a : Int) + 1) = ((log2Nat a + 1 : Nat) : Int) := by push_cast; rfl
    rw [h, zpow_natCast]
    exact_mod_cast (log2Nat_spec a ha).2

theorem log2Floor_spec (q : ℚ) (hq : 0 < q) :
    (2 : ℚ) ^ (log2Floor q) ≤ q ∧ q < (2 : ℚ) ^ (log2Floor q + 1) := by
  have hnum : 0 < q.num := Rat.num_pos.mpr hq
  have ha : q.num.natAbs ≠ 0 := by omega
  have hb : q.den ≠ 0 := q.den_nz
  obtain ⟨ha1, ha2⟩ := natCast_bounds q.num.natAbs ha
  obtain ⟨hb1, hb2⟩ := natCast_bounds q.den hb
  have hbpos : (0 : ℚ) < (q.den : ℚ) := by exact_mod_cast Nat.pos_of_ne_zero hb
  have hqeq : q = (q.num.natAbs : ℚ) / (q.den : ℚ) := by
    have h1 : ((q.num.natAbs : Int) : ℚ) = (q.num : ℚ) := by
      rw [Int.natAbs_of_nonneg (le_of_lt hnum)]
    have h2 : ((q.num.natAbs : ℚ)) = (q.num : ℚ) := by
      rw [← h1, Int.cast_natCast]
    rw [h2, Rat.num_div_den]
  set a : ℚ := (q.num.natAbs : ℚ) with hadef
  set b : ℚ := (q.den : ℚ) with hbdef
  set la : Int := (log2Nat q.num.natAbs : Int) with hla
  set lb : Int := (log2Nat q.den : Int) with hlb
  have h2 : (2 : ℚ) ≠ 0 := by norm_num
  unfold log2Floor
  simp only []
  by_cases hk : (2 : ℚ) ^ (la - lb) ≤ q
  · rw [if_pos hk]
    refine ⟨hk, ?_⟩
    have e1 : (2 : ℚ) ^ (la - lb + 1) = (2 : ℚ) ^ (la + 1) / (2 : ℚ) ^ lb := by
      rw [← zpow_sub₀ h2]; congr 1; ring
    rw [e1, hqeq]
    calc a / b < (2 : ℚ) ^ (la + 1) / b := by
          exact div_lt_div_of_pos_right ha2 hbpos
      _ ≤ (2 : ℚ) ^ (la + 1) / (2 : ℚ) ^ lb := by
          exact div_le_div_of_nonneg_left (le_of_lt (two_zpow_pos _)) (two_zpow_pos _) hb1
  · rw [if_neg hk]
    refine ⟨?_, ?_⟩
    · have e1 : (2 : ℚ) ^ (la - lb - 1) = (2 : ℚ) ^ la / (2 : ℚ) ^ (lb + 1) := by
        rw [← zpow_sub₀ h2]; congr 1; ring
      rw [e1]
      conv_rhs => rw [hqeq]
      calc (2 : ℚ) ^ la / (2 : ℚ) ^ (lb + 1) ≤ a / (2 : ℚ) ^ (lb + 1) := by
            exact div_le_div_of_nonneg_right ha1 (le_of_lt (two_zpow_pos _))
        _ ≤ a / b := by
            have hapos : (0 : ℚ) ≤ a := le_trans (le_of_lt (two_zpow_pos _)) ha1
            exact div_le_div_of_nonneg_left hapos hbpos (le_of_lt hb2)
    · have e2 : la - lb - 1 + 1 = la - lb := by ring
      rw [e2]
      exact lt_of_not_le hk


theorem roundHalfEven_ge_floor (r : ℚ) : ⌊r⌋ ≤ roundHalfEven r := by
  unfold roundHalfEven
  split
  · exact le_refl _
  · split
    · omega
    · split <;> omega

theorem roundHalfEven_le_floor_succ (r : ℚ) : roundHalfEven r ≤ ⌊r⌋ + 1 := by
  unfold roundHalfEven
  split
  · omega
  · split
    · omega
    · split <;> omega

theorem roundHalfEven_ge_int (r : ℚ) (n : Int) (h : (n : ℚ) ≤ r) : n ≤ roundHalfEven r :=
  le_trans (Int.le_floor.mpr h) (roundHalfEven_ge_floor r)

theorem roundHalfEven_le_int (r : ℚ) (n : Int) (h : r ≤ (n : ℚ)) : roundHalfEven r ≤ n := by
  by_cases heq : r = (n : ℚ)
  · subst heq
    unfold roundHalfEven
    simp
  · have hlt : r < (n : ℚ) := lt_of_le_of_ne h heq
    have hf : ⌊r⌋ < n := Int.floor_lt.mpr hlt
    have := roundHalfEven_le_floor_succ r
    omega

theorem roundHalfEven_mono (r r' : ℚ) (h : r ≤ r') : roundHalfEven r ≤ roundHalfEven r' := by
  have hfl : ⌊r⌋ ≤ ⌊r'⌋ := Int.floor_mono h
  rcases lt_or_eq_of_le hfl with hlt | heq
  · have h1 := roundHalfEven_le_floor_succ r
    have h2 := roundHalfEven_ge_floor r'
    omega
  · have hd : r - ⌊r⌋ ≤ r' - ⌊r'⌋ := by
      rw [heq]
      linarith
    unfold roundHalfEven
    rw [heq]
    rw [heq] at hd
    by_cases c1 : r - ⌊r'⌋ < 1 / 2
    · rw [if_pos c1]
      split
      · exact le_refl _
      · split
        · omega
        · split <;> omega
    · rw [if_neg c1]
      have c1' : ¬ (r' - ⌊r'⌋ < 1 / 2) := fun hc => c1 (lt_of_le_of_lt hd hc)
      rw [if_neg c1']
      by_cases c2 : 1 / 2 < r - ⌊r'⌋
      · rw [if_pos c2, if_pos (lt_of_lt_of_le c2 hd)]
      · rw [if_neg c2]
        by_cases c3 : 1 / 2 < r' - ⌊r'⌋
        · rw [if_pos c3]
          split <;> omega
        · rw [if_neg c3]

theorem roundBinary64Pos_bounds (q : ℚ) (hq : 0 < q) :
    (2 : ℚ) ^ (log2Floor q) ≤ roundBinary64Pos q ∧
      roundBinary64Pos q ≤ (2 : ℚ) ^ (log2Floor q + 1) := by
  obtain ⟨h1, h2⟩ := log2Floor_spec q hq
  have h20 : (2 : ℚ) ≠ 0 := by norm_num
  have hepos := two_zpow_pos (log2Floor q - 52)
  have c52 : (2 : ℚ) ^ (52 : Int) = ((2 ^ 52 : Int) : ℚ) := by norm_num
  have c53 : (2 : ℚ) ^ (53 : Int) = ((2 ^ 53 : Int) : ℚ) := by norm_num
  have e1 : (2 : ℚ) ^ (log2Floor q) = ((2 ^ 52 : Int) : ℚ) * (2 : ℚ) ^ (log2Floor q - 52) := by
    rw [← c52, ← zpow_add₀ h20]
    congr 1
    ring
  have e2 : (2 : ℚ) ^ (log2Floor q + 1) =
      ((2 ^ 53 : Int) : ℚ) * (2 : ℚ) ^ (log2Floor q - 52) := by
    rw [← c53, ← zpow_add₀ h20]
    congr 1
    ring
  have hr1 : ((2 ^ 52 : Int) : ℚ) ≤ q / (2 : ℚ) ^ (log2Floor q - 52) := by
    rw [le_div_iff₀ hepos, ← e1]
    exact h1
  have hr2 : q / (2 : ℚ) ^ (log2Floor q - 52) ≤ ((2 ^ 53 : Int) : ℚ) := by
    rw [div_le_iff₀ hepos, ← e2]
    exact le_of_lt h2
  have g1 := roundHalfEven_ge_int _ _ hr1
  have g2 := roundHalfEven_le_int _ _ hr2
  unfold roundBinary64Pos
  rw [e1, e2]
  constructor
  · apply mul_le_mul_of_nonneg_right _ (le_of_lt hepos)
    exact_mod_cast g1
  · apply mul_le_mul_of_nonneg_right _ (le_of_lt hepos)
    exact_mod_cast g2

theorem roundBinary64Pos_pos (q : ℚ) (hq : 0 < q) : 0 < roundBinary64Pos q :=
  lt_of_lt_of_le (two_zpow_pos _) (roundBinary64Pos_bounds q hq).1

theorem roundBinary64Pos_mono (a b : ℚ) (ha : 0 < a) (hab : a ≤ b) :
    roundBinary64Pos a ≤ roundBinary64Pos b := by
  have hb : 0 < b := lt_of_lt_of_le ha hab
  obtain ⟨a1, a2⟩ := log2Floor_spec a ha
  obtain ⟨b1, b2⟩ := log2Floor_spec b hb
  have h21 : (1 : ℚ) ≤ 2 := by norm_num
  have hk : log2Floor a ≤ log2Floor b := by
    by_contra hcon
    have hlt : log2Floor b + 1 ≤ log2Floor a := by omega
    have := zpow_le_zpow_right₀ h21 hlt
    linarith
  rcases lt_or_eq_of_le hk with hlt | heq
  · have h1 := (roundBinary64Pos_bounds a ha).2
    have h2 := (roundBinary64Pos_bounds b hb).1
    have h3 : (2 : ℚ) ^ (log2Floor a + 1) ≤ (2 : ℚ) ^ (log2Floor b) :=
      zpow_le_zpow_right₀ h21 (by omega)
    linarith
  · unfold roundBinary64Pos
    rw [heq]
    apply mul_le_mul_of_nonneg_right _ (le_of_lt (two_zpow_pos _))
    have : roundHalfEven (a / (2 : ℚ) ^ (log2Floor b - 52)) ≤
        roundHalfEven (b / (2 : ℚ) ^ (log2Floor b - 52)) :=
      roundHalfEven_mono _ _ (div_le_div_of_nonneg_right hab (le_of_lt (two_zpow_pos _)))
    exact_mod_cast this

/-- Rounding to the nearest double is monotone. -/
theorem roundBinary64_mono (a b : ℚ) (hab : a ≤ b) : roundBinary64 a ≤ roundBinary64 b := by
  unfold roundBinary64
  by_cases ha0 : a = 0
  · rw [if_pos ha0]
    by_cases hb0 : b = 0
    · rw [if_pos hb0]
    · have hb : 0 < b := lt_of_le_of_ne (ha0 ▸ hab) (Ne.symm hb0)
      rw [if_neg hb0, if_pos hb]
      exact le_of_lt (roundBinary64Pos_pos b hb)
  · rw [if_neg ha0]
    by_cases hapos : 0 < a
    · have hb : 0 < b := lt_of_lt_of_le hapos hab
      rw [if_pos hapos, if_neg (ne_of_gt hb), if_pos hb]
      exact roundBinary64Pos_mono a b hapos hab
    · have haneg : a < 0 := lt_of_le_of_ne (not_lt.mp hapos) ha0
      rw [if_neg hapos]
      have hna := roundBinary64Pos_pos (-a) (by linarith)
      by_cases hb0 : b = 0
      · rw [if_pos hb0]
        linarith
      · rw [if_neg hb0]
        by_cases hbpos : 0 < b
        · rw [if_pos hbpos]
          have := roundBinary64Pos_pos b hbpos
          linarith
        · have hbneg : b < 0 := lt_of_le_of_ne (not_lt.mp hbpos) hb0
          rw [if_neg hbpos]
          have := roundBinary64Pos_mono (-b) (-a) (by linarith) (by linarith)
          linarith

theorem roundBinary64_zero : roundBinary64 0 = 0 := by
  unfold roundBinary64
  rw [if_pos rfl]

/-- A pass whose exact ratio `n / N` is at most the tolerance meets the test of
line 62: rounding to the nearest double is monotone. -/
theorem ratioLeTol_of_le (n N : Nat) (tol : ℚ) (hN : 0 < N)
    (h : (n : ℚ) / (N : ℚ) ≤ tol) : ratioLeTol n N tol = true := by
  have hN0 : N ≠ 0 := by omega
  have hm := roundBinary64_mono _ _ h
  simp [ratioLeTol, hN0, hm]

/-- The test of line 62 at `3` changes of `10` and tolerance `0.3`: the double
nearest to `3/10` is `5404319552844595 / 2 ^ 54`, which is also the double
that the literal `0.3` denotes, so the test holds, although `3/10` exceeds
that double. -/
theorem ratioLeTol_rounds :
    roundBinary64 (3 / 10) = 5404319552844595 / 18014398509481984 ∧
    ratioLeTol 3 10 (3 / 10) = true ∧
    ratioLeTol 3 10 (5404319552844595 / 18014398509481984) = true ∧
    ¬ ((3 : ℚ) / 10 ≤ 5404319552844595 / 18014398509481984) := by
  refine ⟨?_, ?_, ?_, ?_⟩ <;> decide!

theorem rakSeqChanged_succ {σ : Type} (ops : RakOps) (STRICT : Bool) (x : Graph)
    (fa : σ → List Nat → Nat → Bool) (fp : σ → List Nat → Nat → σ)
    (j : Nat) (hj : 1 ≤ j) (s : SeqState σ) :
    rakSeqChanged ops STRICT x fa fp (j + 1) s =
      rakSeqChanged ops STRICT x fa fp j (rakSeqPass ops STRICT x fa fp s).2 := by
  obtain ⟨i, rfl⟩ : ∃ i, j = i + 1 := ⟨j - 1, by omega⟩
  simp [rakSeqChanged, rakSeqPasses]

theorem rakSeqPasses_l {σ : Type} (ops : RakOps) (STRICT : Bool) (x : Graph)
    (fa : σ → List Nat → Nat → Bool) (fp : σ → List Nat → Nat → σ)
    (k : Nat) (s : SeqState σ) :
    (rakSeqPasses ops STRICT x fa fp k s).l = s.l + k := by
  induction k generalizing s with
  | zero => simp [rakSeqPasses]
  | succ k ih =>
    rw [rakSeqPasses, ih]
    simp only [rakSeqPass]
    push_cast
    omega

/-- The loop with `n` iterations allowed stops after `k ≤ n` passes, where no
pass before the `k`-th met the test and the `k`-th did unless `k = n`. -/
theorem rakSeqLoop_stops {σ : Type} (ops : RakOps) (STRICT : Bool) (x : Graph) (tol : ℚ)
    (fa : σ → List Nat → Nat → Bool) (fp : σ → List Nat → Nat → σ)
    (n : Nat) (s : SeqState σ) :
    ∃ k : Nat, k ≤ n ∧ (0 < n → 1 ≤ k) ∧
      rakSeqLoop ops STRICT x tol fa fp n s = rakSeqPasses ops STRICT x fa fp k s ∧
      (∀ i, 1 ≤ i → i < k →
        ratioLeTol (rakSeqChanged ops STRICT x fa fp i s) x.order tol = false) ∧
      (k < n → ratioLeTol (rakSeqChanged ops STRICT x fa fp k s) x.order tol = true) := by
  induction n generalizing s with
  | zero => exact ⟨0, le_refl _, fun h => absurd h (lt_irrefl _), rfl,
      fun i h1 h2 => by omega, fun h => absurd h (lt_irrefl _)⟩
  | succ n ih =>
    by_cases hc : ratioLeTol (rakSeqPass ops STRICT x fa fp s).1 x.order tol = true
    · refine ⟨1, by omega, fun _ => le_refl _, ?_, fun i h1 h2 => by omega, fun _ => ?_⟩
      · simp only [rakSeqLoop, hc, if_true, rakSeqPasses]
      · simpa [rakSeqChanged, rakSeqPasses] using hc
    · obtain ⟨k, hk, hpos, heq, hbefore, hat⟩ := ih (rakSeqPass ops STRICT x fa fp s).2
      refine ⟨k + 1, by omega, fun _ => by omega, ?_, ?_, ?_⟩
      · simp [rakSeqLoop, hc, rakSeqPasses, heq]
      · intro i h1 h2
        by_cases hi : i = 1
        · subst hi
          simpa [rakSeqChanged, rakSeqPasses] using hc
        · obtain ⟨i', rfl⟩ : ∃ i', i = i' + 1 := ⟨i - 1, by omega⟩
          rw [rakSeqChanged_succ ops STRICT x fa fp i' (by omega)]
          exact hbefore i' (by omega) (by omega)
      · intro hlt
        have hk1 : 1 ≤ k := hpos (by omega)
        rw [rakSeqChanged_succ ops STRICT x fa fp k hk1]
        exact hat (by omega)

/-- C4: stopping rule of `rakSeq`, for a graph with `N = order > 0`, any
tolerance, any cap `m = maxIterations` and `repeat ≥ 1`.  "Meets the
tolerance" is the test of line 62, `double(n)/N <= o.tolerance`, as the code
computes it (`ratioLeTol`).  There is a number `k` such that the returned
iteration count is `k` and the final state is the state after exactly `k`
passes from the start of the loop.  If `m ≤ 0` then `k = 0`.  If `m > 0`
then `1 ≤ k ≤ m`; `k` is the index of the first pass among the first `m`
whose `changed / N` meets the tolerance, when there is one, and `k = m` when
no pass among the first `m` meets it.  Moreover a pass whose exact ratio
`changed / N` is at most the tolerance meets the test, so the loop stops no
later than the first such pass. -/
theorem rakSeq_stopping_rule {σ : Type} (ops : RakOps) (STRICT : Bool) (x : Graph)
    (q : Option (List Nat)) (o : RakOptions)
    (fa : σ → List Nat → Nat → Bool) (fp : σ → List Nat → Nat → σ) (env : σ)
    (hN : 0 < x.order) (hr : 1 ≤ o.repeatCount) :
    ∃ k : Nat,
      (rakSeq ops STRICT x q o fa fp env).iterations = (k : Int) ∧
      rakSeqFinal ops STRICT x q o fa fp env =
        rakSeqPasses ops STRICT x fa fp k (rakSeqStart ops STRICT x o fa fp env) ∧
      (o.maxIterations ≤ 0 → k = 0) ∧
      (0 < o.maxIterations →
        1 ≤ k ∧ (k : Int) ≤ o.maxIterations ∧
        (∀ j : Nat, 1 ≤ j → (j : Int) ≤ o.maxIterations →
          ratioLeTol (rakSeqChanged ops STRICT x fa fp j (rakSeqStart ops STRICT x o fa fp env))
            x.order o.tolerance = true →
          (∀ i : Nat, 1 ≤ i → i < j →
            ratioLeTol
              (rakSeqChanged ops STRICT x fa fp i (rakSeqStart ops STRICT x o fa fp env))
              x.order o.tolerance = false) →
          k = j) ∧
        ((∀ j : Nat, 1 ≤ j → (j : Int) ≤ o.maxIterations →
          ratioLeTol (rakSeqChanged ops STRICT x fa fp j (rakSeqStart ops STRICT x o fa fp env))
            x.order o.tolerance = false) →
          (k : Int) = o.maxIterations) ∧
        (∀ j : Nat, 1 ≤ j → (j : Int) ≤ o.maxIterations →
          ((rakSeqChanged ops STRICT x fa fp j (rakSeqStart ops STRICT x o fa fp env) : ℚ)
            / (x.order : ℚ) ≤ o.tolerance) →
          k ≤ j)) := by
  obtain ⟨k, hk, hpos, heq, hbefore, hat⟩ := rakSeqLoop_stops ops STRICT x o.tolerance fa fp
    o.maxIterations.toNat (rakSeqStart ops STRICT x o fa fp env)
  have hfin := rakSeqFinal_eq_loop ops STRICT x q o fa fp env hr
  refine ⟨k, ?_, hfin.trans heq, fun hm => by omega, fun hm => ?_⟩
  · simp only [rakSeq, hfin, heq, rakSeqPasses_l]
    simp [rakSeqStart]
  · have hk1 : 1 ≤ k := hpos (by omega)
    refine ⟨hk1, by omega, ?_, ?_, ?_⟩
    · intro j hj1 hjm hconv hfirst
      rcases Nat.lt_trichotomy k j with hlt | heq' | hgt
      · have h1 := hat (by omega)
        rw [hfirst k hk1 hlt] at h1
        exact absurd h1 (by decide)
      · exact heq'
      · have h1 := hbefore j hj1 hgt
        rw [hconv] at h1
        exact absurd h1 (by decide)
    · intro hnone
      by_contra hne
      have h1 := hat (by omega)
      rw [hnone k hk1 (by omega)] at h1
      exact absurd h1 (by decide)
    · intro j hj1 hjm hexact
      by_contra hgt
      have h1 := hbefore j hj1 (by omega)
      rw [ratioLeTol_of_le _ _ _ hN hexact] at h1
      exact absurd h1 (by decide)

/-- Witness for C4: the static run on the path `1 - 2 - 3 - 4` with tolerance
`0` and cap `10`. -/
theorem rakSeq_stopping_rule_witness :
    0 < path4.order ∧ 1 ≤ opts10.repeatCount ∧
    ∃ k : Nat,
      (rakSeq specOps false path4 none opts10 allActive logCall []).iterations = (k : Int) ∧
      rakSeqFinal specOps false path4 none opts10 allActive logCall [] =
        rakSeqPasses specOps false path4 allActive logCall k
          (rakSeqStart specOps false path4 opts10 allActive logCall []) ∧
      (opts10.maxIterations ≤ 0 → k = 0) ∧
      (0 < opts10.maxIterations →
        1 ≤ k ∧ (k : Int) ≤ opts10.maxIterations ∧
        (∀ j : Nat, 1 ≤ j → (j : Int) ≤ opts10.maxIterations →
          ratioLeTol (rakSeqChanged specOps false path4 allActive logCall j
              (rakSeqStart specOps false path4 opts10 allActive logCall []))
            path4.order opts10.tolerance = true →
          (∀ i : Nat, 1 ≤ i → i < j →
            ratioLeTol (rakSeqChanged specOps false path4 allActive logCall i
                (rakSeqStart specOps false path4 opts10 allActive logCall []))
              path4.order opts10.tolerance = false) →
          k = j) ∧
        ((∀ j : Nat, 1 ≤ j → (j : Int) ≤ opts10.maxIterations →
          ratioLeTol (rakSeqChanged specOps false path4 allActive logCall j
              (rakSeqStart specOps false path4 opts10 allActive logCall []))
            path4.order opts10.tolerance = false) →
          (k : Int) = opts10.maxIterations) ∧
        (∀ j : Nat, 1 ≤ j → (j : Int) ≤ opts10.maxIterations →
          ((rakSeqChanged specOps false path4 allActive logCall j
              (rakSeqStart specOps false path4 opts10 allActive logCall []) : ℚ)
            / (path4.order : ℚ) ≤ opts10.tolerance) →
          k ≤ j)) :=
  ⟨by decide, by decide,
    rakSeq_stopping_rule specOps false path4 none opts10 allActive logCall []
      (by decide) (by decide)⟩

/-! ## C5: the prior assignment of the dynamic modes -/

/-- The pointer `q` handed to `rakSeq` is never read: any two values give the
same result. -/
theorem rakSeq_prior_unused {σ : Type} (ops : RakOps) (STRICT : Bool) (x : Graph)
    (q q' : Option (List Nat)) (o : RakOptions)
    (fa : σ → List Nat → Nat → Bool) (fp : σ → List Nat → Nat → σ) (env : σ) :
    rakSeq ops STRICT x q o fa fp env = rakSeq ops STRICT x q' o fa fp env := rfl

/-- C5, evaluated on the code: on the path `1 - 2 - 3 - 4` with an empty edit
and the prior assignment `[0, 2, 2, 4, 4]` (communities `{1, 2}` and
`{3, 4}`), the first pass of both dynamic modes starts from the singleton
assignment `[0, 1, 2, 3, 4]` and not from the prior one, and the runs, in
which no vertex is moved (cap `10` with nothing active, or cap `0`), return
the singleton assignment. -/
theorem rakSeqDynamic_starts_from_singletons :
    (rakSeqStart specOps false path4 opts10 frontierFa (frontierFp path4)
        (specOps.affectedFrontier path4 [] [] [0, 2, 2, 4, 4])).vcom = [0, 1, 2, 3, 4] ∧
    rakSeqDynamicFrontier specOps false path4 [] [] [0, 2, 2, 4, 4] opts10
      = { membership := [0, 1, 2, 3, 4], iterations := 1 } ∧
    rakSeqDynamicFrontier specOps false path4 [] [] [0, 2, 2, 4, 4] opts0
      = { membership := [0, 1, 2, 3, 4], iterations := 0 } ∧
    rakSeqDynamicDeltaScreening specOps false path4 [] [] [0, 2, 2, 4, 4] opts10
      = { membership := [0, 1, 2, 3, 4], iterations := 1 } ∧
    rakSeqDynamicDeltaScreening specOps false path4 [] [] [0, 2, 2, 4, 4] opts0
      = { membership := [0, 1, 2, 3, 4], iterations := 0 } := by
  refine ⟨?_, ?_, ?_, ?_, ?_⟩ <;> decide!

/-! ## C6: the repeat count -/

/-- C6, evaluated on the code: frontier mode on the path `1 - 2 - 3 - 4`
after the insertion of the edge `2 - 3`, tolerance `0`, cap `10`.  With
`repeat = 1` every vertex ends in community `1`; with `repeat = 2` every
vertex ends in community `2`, in strict and in non-strict mode, because the
second execution starts with the flag array the first one has grown.  No
two candidate weights tie on this input.  On the same input the static and
the delta-screening runs return the same result for `repeat = 1` and
`repeat = 2`. -/
theorem rakSeqDynamicFrontier_repeat_changes_result :
    rakSeqDynamicFrontier specOps false path4 [] insert23 [0, 1, 2, 3, 4] opts10
      = { membership := [0, 1, 1, 1, 1], iterations := 2 } ∧
    rakSeqDynamicFrontier specOps false path4 [] insert23 [0, 1, 2, 3, 4] opts10twice
      = { membership := [0, 2, 2, 2, 2], iterations := 2 } ∧
    rakSeqDynamicFrontier specOps true path4 [] insert23 [0, 1, 2, 3, 4] opts10
      = { membership := [0, 1, 1, 1, 1], iterations := 2 } ∧
    rakSeqDynamicFrontier specOps true path4 [] insert23 [0, 1, 2, 3, 4] opts10twice
      = { membership := [0, 2, 2, 2, 2], iterations := 2 } ∧
    rakSeqStatic specOps false path4 none opts10twice
      = rakSeqStatic specOps false path4 none opts10 ∧
    rakSeqDynamicDeltaScreening specOps false path4 [] insert23 [0, 1, 2, 3, 4] opts10twice
      = rakSeqDynamicDeltaScreening specOps false path4 [] insert23 [0, 1, 2, 3, 4] opts10 := by
  refine ⟨?_, ?_, ?_, ?_, ?_, ?_⟩ <;> decide!

/-! ## C7: the size of the prior assignment -/

/-- C7 fails on the code: with a prior assignment of `7` entries on a graph
whose id domain has `5`, both dynamic modes return a result and have run
two passes. -/
theorem rakSeqDynamic_accepts_wrong_size :
    [0, 1, 2, 3, 4, 5, 6].length ≠ path4.span ∧
    rakSeqDynamicDeltaScreening specOps false path4 [] insert23 [0, 1, 2, 3, 4, 5, 6] opts10
      = { membership := [0, 1, 1, 1, 4], iterations := 2 } ∧
    rakSeqDynamicFrontier specOps false path4 [] insert23 [0, 1, 2, 3, 4, 5, 6] opts10
      = { membership := [0, 1, 1, 1, 1], iterations := 2 } := by
  refine ⟨?_, ?_, ?_⟩ <;> decide!

/-- With `repeat ≥ 1` and a positive cap, at least one pass and at most
`maxIterations` passes are counted. -/
theorem rakSeq_iterations_bounds {σ : Type} (ops : RakOps) (STRICT : Bool) (x : Graph)
    (q : Option (List Nat)) (o : RakOptions)
    (fa : σ → List Nat → Nat → Bool) (fp : σ → List Nat → Nat → σ) (env : σ)
    (hr : 1 ≤ o.repeatCount) (hm : 1 ≤ o.maxIterations) :
    1 ≤ (rakSeq ops STRICT x q o fa fp env).iterations ∧
      (rakSeq ops STRICT x q o fa fp env).iterations ≤ o.maxIterations := by
  obtain ⟨k, hk, hpos, heq, -, -⟩ := rakSeqLoop_stops ops STRICT x o.tolerance fa fp
    o.maxIterations.toNat (rakSeqStart ops STRICT x o fa fp env)
  have hfin := rakSeqFinal_eq_loop ops STRICT x q o fa fp env hr
  have hk1 : 1 ≤ k := hpos (by omega)
  have hl : (rakSeq ops STRICT x q o fa fp env).iterations = (k : Int) := by
    simp only [rakSeq, hfin, heq, rakSeqPasses_l]
    simp [rakSeqStart]
  rw [hl]
  omega

/-- C7 as amended: the dynamic modes make no size check before the passes.
For `rakSeqDynamicDeltaScreening` and `rakSeqDynamicFrontier` and a prior
assignment `q` of any size, equal to `span()` or not, with `repeat ≥ 1` and
`maxIterations ≥ 1`, at least one Move Iteration pass executes: the final
state is the state after `k` passes with `1 ≤ k ≤ maxIterations`, and `k`
is the returned iteration count. -/
theorem rakSeqDynamic_no_size_check (ops : RakOps) (STRICT : Bool) (x : Graph)
    (deletions : Deletions) (insertions : Insertions) (q : List Nat) (o : RakOptions)
    (hr : 1 ≤ o.repeatCount) (hm : 1 ≤ o.maxIterations) :
    (1 ≤ (rakSeqDynamicDeltaScreening ops STRICT x deletions insertions q o).iterations ∧
      (rakSeqDynamicDeltaScreening ops STRICT x deletions insertions q o).iterations
        ≤ o.maxIterations) ∧
    (1 ≤ (rakSeqDynamicFrontier ops STRICT x deletions insertions q o).iterations ∧
      (rakSeqDynamicFrontier ops STRICT x deletions insertions q o).iterations
        ≤ o.maxIterations) ∧
    (∃ k : Nat, 1 ≤ k ∧
      (rakSeqDynamicFrontier ops STRICT x deletions insertions q o).iterations = (k : Int) ∧
      rakSeqDynamicFrontierFinal ops STRICT x deletions insertions q o =
        rakSeqPasses ops STRICT x frontierFa (frontierFp x) k
          (rakSeqStart ops STRICT x o frontierFa (frontierFp x)
            (ops.affectedFrontier x deletions insertions q))) := by
  refine ⟨?_, ?_, ?_⟩
  · exact rakSeq_iterations_bounds ops STRICT x (some q) o _ _ () hr hm
  · exact rakSeq_iterations_bounds ops STRICT x (some q) o _ _ _ hr hm
  · obtain ⟨k, -, hpos, heq, -, -⟩ := rakSeqLoop_stops ops STRICT x o.tolerance
      frontierFa (frontierFp x) o.maxIterations.toNat
      (rakSeqStart ops STRICT x o frontierFa (frontierFp x)
        (ops.affectedFrontier x deletions insertions q))
    have hfin := rakSeqFinal_eq_loop ops STRICT x (some q) o frontierFa (frontierFp x)
      (ops.affectedFrontier x deletions insertions q) hr
    refine ⟨k, hpos (by omega), ?_, ?_⟩
    · simp only [rakSeqDynamicFrontier, rakSeq, hfin, heq, rakSeqPasses_l]
      simp [rakSeqStart]
    · simp only [rakSeqDynamicFrontierFinal]
      exact hfin.trans heq

/-- Witness for C7 as amended: a prior assignment of `7` entries on the
path `1 - 2 - 3 - 4`, whose id domain has `5`. -/
theorem rakSeqDynamic_no_size_check_witness :
    [0, 1, 2, 3, 4, 5, 6].length ≠ path4.span ∧
    1 ≤ opts10.repeatCount ∧ 1 ≤ opts10.maxIterations ∧
    ((1 ≤ (rakSeqDynamicDeltaScreening specOps false path4 [] insert23
          [0, 1, 2, 3, 4, 5, 6] opts10).iterations ∧
      (rakSeqDynamicDeltaScreening specOps false path4 [] insert23
          [0, 1, 2, 3, 4, 5, 6] opts10).iterations ≤ opts10.maxIterations) ∧
    (1 ≤ (rakSeqDynamicFrontier specOps false path4 [] insert23
          [0, 1, 2, 3, 4, 5, 6] opts10).iterations ∧
      (rakSeqDynamicFrontier specOps false path4 [] insert23
          [0, 1, 2, 3, 4, 5, 6] opts10).iterations ≤ opts10.maxIterations) ∧
    (∃ k : Nat, 1 ≤ k ∧
      (rakSeqDynamicFrontier specOps false path4 [] insert23
          [0, 1, 2, 3, 4, 5, 6] opts10).iterations = (k : Int) ∧
      rakSeqDynamicFrontierFinal specOps false path4 [] insert23 [0, 1, 2, 3, 4, 5, 6] opts10 =
        rakSeqPasses specOps false path4 frontierFa (frontierFp path4) k
          (rakSeqStart specOps false path4 opts10 frontierFa (frontierFp path4)
            (specOps.affectedFrontier path4 [] insert23 [0, 1, 2, 3, 4, 5, 6])))) :=
  ⟨by decide, by decide, by decide,
    rakSeqDynamic_no_size_check specOps false path4 [] insert23 [0, 1, 2, 3, 4, 5, 6] opts10
      (by decide) (by decide)⟩

/-! ## C8: the frontier only grows -/

theorem isAffected_set_self (b : List Bool) (w : Nat) (h : w < b.length) :
    isAffected (b.set w true) w = true := by
  simp [isAffected, List.getD_eq_getElem?_getD, List.getElem?_set, h]

theorem isAffected_set_true (b : List Bool) (w v : Nat) (h : isAffected b v = true) :
    isAffected (b.set w true) v = true := by
  by_cases hwv : w = v
  · subst hwv
    by_cases hlt : w < b.length
    · exact isAffected_set_self b w hlt
    · rw [List.set_eq_of_length_le (by omega)]
      exact h
  · simpa [isAffected, List.getD_eq_getElem?_getD, List.getElem?_set, hwv] using h

theorem markFold_length (vs : List Nat) (b : List Bool) :
    (vs.foldl (fun b v => b.set v true) b).length = b.length := by
  induction vs generalizing b with
  | nil => rfl
  | cons w vs ih => simp [List.foldl_cons, ih]

theorem markFold_mono (vs : List Nat) (b : List Bool) (v : Nat)
    (h : isAffected b v = true) :
    isAffected (vs.foldl (fun b v => b.set v true) b) v = true := by
  induction vs generalizing b with
  | nil => exact h
  | cons w vs ih => exact ih _ (isAffected_set_true b w v h)

theorem markFold_marks (vs : List Nat) (b : List Bool) (v : Nat) (hv : v ∈ vs)
    (hlt : v < b.length) :
    isAffected (vs.foldl (fun b v => b.set v true) b) v = true := by
  induction vs generalizing b with
  | nil => cases hv
  | cons w vs ih =>
    rcases List.mem_cons.mp hv with rfl | hv'
    · exact markFold_mono vs _ v (isAffected_set_self b v hlt)
    · exact ih _ hv' (by simpa using hlt)

/-- Flagging the neighbours of `u` clears no flag. -/
theorem frontierMark_mono (x : Graph) (b : List Bool) (u v : Nat)
    (h : isAffected b v = true) : isAffected (frontierMark x b u) v = true :=
  markFold_mono _ b v h

/-- Flagging the neighbours of `u` sets the flag of each of them. -/
theorem frontierMark_marks (x : Graph) (b : List Bool) (u v : Nat)
    (hv : v ∈ x.edgeKeys u) (hlt : v < b.length) :
    isAffected (frontierMark x b u) v = true :=
  markFold_marks _ b v hv hlt

theorem frontier_visit_mono (ops : RakOps) (STRICT : Bool) (x : Graph)
    (st : MoveState (List Bool)) (u v : Nat) (h : isAffected st.env v = true) :
    isAffected (rakMoveVisit ops STRICT x frontierFa (frontierFp x) st u).env v = true := by
  unfold rakMoveVisit
  split
  · exact h
  · dsimp only
    split
    · exact frontierMark_mono x _ u v h
    · exact h

theorem frontier_from_mono (ops : RakOps) (STRICT : Bool) (x : Graph)
    (ks : List Nat) (st : MoveState (List Bool)) (v : Nat) (h : isAffected st.env v = true) :
    isAffected (rakMoveFrom ops STRICT x frontierFa (frontierFp x) ks st).env v = true := by
  induction ks generalizing st with
  | nil => exact h
  | cons u ks ih =>
    rw [rakMoveFrom_cons]
    exact ih _ (frontier_visit_mono ops STRICT x st u v h)

theorem frontier_pass_mono (ops : RakOps) (STRICT : Bool) (x : Graph)
    (s : SeqState (List Bool)) (v : Nat) (h : isAffected s.env v = true) :
    isAffected (rakSeqPass ops STRICT x frontierFa (frontierFp x) s).2.env v = true :=
  frontier_from_mono ops STRICT x x.keys _ v h

theorem frontier_passes_mono (ops : RakOps) (STRICT : Bool) (x : Graph)
    (k : Nat) (s : SeqState (List Bool)) (v : Nat) (h : isAffected s.env v = true) :
    isAffected (rakSeqPasses ops STRICT x frontierFa (frontierFp x) k s).env v = true := by
  induction k generalizing s with
  | zero => exact h
  | succ k ih =>
    rw [rakSeqPasses]
    exact ih _ (frontier_pass_mono ops STRICT x s v h)

theorem frontier_loop_mono (ops : RakOps) (STRICT : Bool) (x : Graph) (tol : ℚ)
    (n : Nat) (s : SeqState (List Bool)) (v : Nat) (h : isAffected s.env v = true) :
    isAffected (rakSeqLoop ops STRICT x tol frontierFa (frontierFp x) n s).env v = true := by
  obtain ⟨k, -, -, heq, -, -⟩ :=
    rakSeqLoop_stops ops STRICT x tol frontierFa (frontierFp x) n s
  rw [heq]
  exact frontier_passes_mono ops STRICT x k s v h

theorem frontier_body_mono (ops : RakOps) (STRICT : Bool) (x : Graph) (o : RakOptions)
    (s : SeqState (List Bool)) (v : Nat) (h : isAffected s.env v = true) :
    isAffected (rakSeqBody ops STRICT x o frontierFa (frontierFp x) s).env v = true :=
  frontier_loop_mono ops STRICT x o.tolerance _ _ v h

theorem frontier_repeat_mono (ops : RakOps) (STRICT : Bool) (x : Graph) (o : RakOptions)
    (r : Nat) (s : SeqState (List Bool)) (v : Nat) (h : isAffected s.env v = true) :
    isAffected (Nat.iterate (rakSeqBody ops STRICT x o frontierFa (frontierFp x)) r s).env v
      = true := by
  induction r generalizing s with
  | zero => exact h
  | succ r ih =>
    rw [Function.iterate_succ_apply]
    exact ih _ (frontier_body_mono ops STRICT x o s v h)

/-- C8: in the frontier mode, with state (assignment, flag array `vaff`):
(a) every vertex visit keeps active every vertex that was active before it;
(b) right after an accepted move of `u` (`u` active, candidate `c ≠ 0`,
`c ≠ d`) every neighbour `v` of `u` inside the flag array is active;
(c) a whole pass, (d) any number of consecutive passes and (e) the whole
run of `rakSeqDynamicFrontier` keep active every vertex that was active
when they began: a vertex that is active stays active. -/
theorem rakSeqDynamicFrontier_active_grows (ops : RakOps) (STRICT : Bool) (x : Graph) :
    (∀ (st : MoveState (List Bool)) (u v : Nat), isAffected st.env v = true →
      isAffected (rakMoveVisit ops STRICT x frontierFa (frontierFp x) st u).env v = true) ∧
    (∀ (st : MoveState (List Bool)) (u v : Nat), isAffected st.env u = true →
      rakCandidate ops STRICT x st.buf st.vcom u ≠ 0 →
      rakCandidate ops STRICT x st.buf st.vcom u ≠ st.vcom.getD u 0 →
      v ∈ x.edgeKeys u → v < st.env.length →
      isAffected (rakMoveVisit ops STRICT x frontierFa (frontierFp x) st u).env v = true) ∧
    (∀ (buf : Scratch) (vcom : List Nat) (vaff : List Bool) (v : Nat),
      isAffected vaff v = true →
      isAffected (rakMoveIteration ops STRICT buf vcom x frontierFa (frontierFp x) vaff).env v
        = true) ∧
    (∀ (k : Nat) (s : SeqState (List Bool)) (v : Nat), isAffected s.env v = true →
      isAffected (rakSeqPasses ops STRICT x frontierFa (frontierFp x) k s).env v = true) ∧
    (∀ (deletions : Deletions) (insertions : Insertions) (q : List Nat) (o : RakOptions)
      (v : Nat), isAffected (ops.affectedFrontier x deletions insertions q) v = true →
      isAffected (rakSeqDynamicFrontierFinal ops STRICT x deletions insertions q o).env v
        = true) := by
  refine ⟨frontier_visit_mono ops STRICT x, ?_, ?_, frontier_passes_mono ops STRICT x, ?_⟩
  · intro st u v hu hc0 hcd hv hlt
    rw [rakMoveVisit_moved ops STRICT x frontierFa (frontierFp x) st u hu ⟨hc0, hcd⟩]
    exact frontierMark_marks x st.env u v hv hlt
  · intro buf vcom vaff v h
    exact frontier_from_mono ops STRICT x x.keys _ v h
  · intro deletions insertions q o v h
    exact frontier_repeat_mono ops STRICT x o _ _ v h

/-- Witness for C8: on the path `1 - 2 - 3 - 4` with flags on `2` and `3`,
the visit of vertex `2` from the singleton assignment is an accepted move
and leaves its neighbour `1` active. -/
theorem rakSeqDynamicFrontier_active_grows_witness :
    isAffected (rakMoveVisit specOps false path4 frontierFa (frontierFp path4)
      { buf := buf5, vcom := [0, 1, 2, 3, 4], a := 0,
        env := [false, false, true, true, false] } 2).env 1 = true :=
  (rakSeqDynamicFrontier_active_grows specOps false path4).2.1
    { buf := buf5, vcom := [0, 1, 2, 3, 4], a := 0,
      env := [false, false, true, true, false] } 2 1
    (by decide) (by decide!) (by decide!) (by decide) (by decide)

/-! ## C9: the static mode starts from singletons -/

theorem initFold_length (ks : List Nat) (v : List Nat) :
    (ks.foldl (fun v u => v.set u u) v).length = v.length := by
  induction ks generalizing v with
  | nil => rfl
  | cons w ks ih => simp [List.foldl_cons, ih]

theorem initFold_keeps (ks : List Nat) (v : List Nat) (u : Nat) (h : v.getD u 0 = u) :
    (ks.foldl (fun v u => v.set u u) v).getD u 0 = u := by
  induction ks generalizing v with
  | nil => exact h
  | cons w ks ih =>
    apply ih
    show (v.set w w).getD u 0 = u
    by_cases hw : w = u
    · subst hw
      by_cases hlt : w < v.length
      · simp [List.getD_eq_getElem?_getD, List.getElem?_set, hlt]
      · rw [List.set_eq_of_length_le (by omega)]
        exact h
    · simpa [List.getD_eq_getElem?_getD, List.getElem?_set, hw] using h

theorem initFold_sets (ks : List Nat) (v : List Nat) (u : Nat) (hu : u ∈ ks)
    (hlt : u < v.length) : (ks.foldl (fun v u => v.set u u) v).getD u 0 = u := by
  induction ks generalizing v with
  | nil => cases hu
  | cons w ks ih =>
    rcases List.mem_cons.mp hu with rfl | hu'
    · rw [List.foldl_cons]
      apply initFold_keeps
      simp [List.getD_eq_getElem?_getD, List.getElem?_set, hlt]
    · exact ih _ hu' (by simpa using hlt)

theorem rakInitialize_length (vcom : List Nat) (x : Graph) :
    (rakInitialize vcom x).length = vcom.length :=
  initFold_length x.keys vcom

/-- After `rakInitialize` every valid vertex inside the assignment is its own
community. -/
theorem rakInitialize_getD (vcom : List Nat) (x : Graph) (u : Nat) (hu : u ∈ x.keys)
    (hlt : u < vcom.length) : (rakInitialize vcom x).getD u 0 = u :=
  initFold_sets x.keys vcom u hu hlt

theorem rakSeqLoop_length {σ : Type} (ops : RakOps) (STRICT : Bool) (x : Graph) (tol : ℚ)
    (fa : σ → List Nat → Nat → Bool) (fp : σ → List Nat → Nat → σ)
    (n : Nat) (s : SeqState σ) :
    (rakSeqLoop ops STRICT x tol fa fp n s).vcom.length = s.vcom.length := by
  induction n generalizing s with
  | zero => rfl
  | succ n ih =>
    have hp : (rakSeqPass ops STRICT x fa fp s).2.vcom.length = s.vcom.length := by
      simp only [rakSeqPass, rakMoveIteration]
      exact rakMoveFrom_length ops STRICT x fa fp _ _
    simp only [rakSeqLoop]
    split
    · exact hp
    · rw [ih, hp]

theorem rakSeqBody_length {σ : Type} (ops : RakOps) (STRICT : Bool) (x : Graph)
    (o : RakOptions) (fa : σ → List Nat → Nat → Bool) (fp : σ → List Nat → Nat → σ)
    (hinit : ops.initCommunities = rakInitialize) (s : SeqState σ) :
    (rakSeqBody ops STRICT x o fa fp s).vcom.length = s.vcom.length := by
  simp only [rakSeqBody, rakSeqLoop_length, hinit, rakInitialize_length]

theorem measureDuration_body_length {σ : Type} (ops : RakOps) (STRICT : Bool) (x : Graph)
    (o : RakOptions) (fa : σ → List Nat → Nat → Bool) (fp : σ → List Nat → Nat → σ)
    (hinit : ops.initCommunities = rakInitialize) (n : Int) (s : SeqState σ) :
    (measureDuration (rakSeqBody ops STRICT x o fa fp) n s).vcom.length = s.vcom.length := by
  unfold measureDuration
  generalize n.toNat = r
  induction r generalizing s with
  | zero => rfl
  | succ r ih =>
    rw [Function.iterate_succ_apply, ih, rakSeqBody_length ops STRICT x o fa fp hinit]

/-- With `rakInitialize` as initialiser, the loop of the last execution starts
from an assignment in which every valid vertex below `span` is a singleton. -/
theorem rakSeqStart_singletons {σ : Type} (ops : RakOps) (STRICT : Bool) (x : Graph)
    (o : RakOptions) (fa : σ → List Nat → Nat → Bool) (fp : σ → List Nat → Nat → σ)
    (env : σ) (hinit : ops.initCommunities = rakInitialize) (u : Nat) (hu : u ∈ x.keys)
    (hlt : u < x.span) :
    (rakSeqStart ops STRICT x o fa fp env).vcom.getD u 0 = u := by
  simp only [rakSeqStart, hinit]
  apply rakInitialize_getD _ x u hu
  rw [measureDuration_body_length ops STRICT x o fa fp hinit]
  simpa [rakSeqInit] using hlt

/-- C9: singleton-start invariant of `rakSeqStatic`, with `rakInitialize` as
the specification describes it, on a graph whose valid vertex ids lie in the
id domain, for `repeat ≥ 1` and any `q`.  The assignment right after
initialisation, before the first pass, has `community[u] = u` for every
valid vertex `u`; and with `maxIterations = 0` the returned iteration count
is `0` and the returned assignment is the identity on the valid vertices. -/
theorem rakSeqStatic_singleton_start (ops : RakOps) (STRICT : Bool) (x : Graph)
    (q : Option (List Nat)) (o : RakOptions) (hinit : ops.initCommunities = rakInitialize)
    (hwf : ∀ u ∈ x.keys, u < x.span) (hr : 1 ≤ o.repeatCount) :
    (∀ u ∈ x.keys,
      (rakSeqStart ops STRICT x o (fixedActive (fun _ => true)) noCallback ()).vcom.getD u 0
        = u) ∧
    (o.maxIterations = 0 →
      (rakSeqStatic ops STRICT x q o).iterations = 0 ∧
      ∀ u ∈ x.keys, (rakSeqStatic ops STRICT x q o).membership.getD u 0 = u) := by
  have hstart : ∀ u ∈ x.keys,
      (rakSeqStart ops STRICT x o (fixedActive (fun _ => true)) noCallback ()).vcom.getD u 0
        = u :=
    fun u hu => rakSeqStart_singletons ops STRICT x o _ _ () hinit u hu (hwf u hu)
  refine ⟨hstart, fun hm => ?_⟩
  have hfin := rakSeqFinal_eq_loop ops STRICT x q o
    (fixedActive (fun _ => true)) (noCallback (σ := Unit)) () hr
  have h0 : o.maxIterations.toNat = 0 := by omega
  rw [h0] at hfin
  simp only [rakSeqLoop] at hfin
  refine ⟨?_, fun u hu => ?_⟩
  · simp only [rakSeqStatic, rakSeqAll, rakSeqFa, rakSeq, hfin]
    rfl
  · simp only [rakSeqStatic, rakSeqAll, rakSeqFa, rakSeq, hfin]
    exact hstart u hu

/-- Witness for C9: the path `1 - 2 - 3 - 4`, cap `0`, and a prior assignment
that is not the identity. -/
theorem rakSeqStatic_singleton_start_witness :
    specOps.initCommunities = rakInitialize ∧ (∀ u ∈ path4.keys, u < path4.span) ∧
    1 ≤ opts0.repeatCount ∧
    ((∀ u ∈ path4.keys,
      (rakSeqStart specOps false path4 opts0 (fixedActive (fun _ => true))
        noCallback ()).vcom.getD u 0 = u) ∧
    (opts0.maxIterations = 0 →
      (rakSeqStatic specOps false path4 (some [0, 2, 2, 4, 4]) opts0).iterations = 0 ∧
      ∀ u ∈ path4.keys,
        (rakSeqStatic specOps false path4 (some [0, 2, 2, 4, 4]) opts0).membership.getD u 0
          = u)) :=
  ⟨rfl, by decide, by decide,
    rakSeqStatic_singleton_start specOps false path4 (some [0, 2, 2, 4, 4]) opts0 rfl
      (by decide) (by decide)⟩

/-! ## C10: an empty active set converges at once -/

theorem rakMoveFrom_all_inactive {σ : Type} (ops : RakOps) (STRICT : Bool) (x : Graph)
    (fa : σ → List Nat → Nat → Bool) (fp : σ → List Nat → Nat → σ)
    (hfa : ∀ s v u, fa s v u = false) (ks : List Nat) (st : MoveState σ) :
    rakMoveFrom ops STRICT x fa fp ks st = st := by
  induction ks generalizing st with
  | nil => rfl
  | cons u ks ih =>
    rw [rakMoveFrom_cons, rakMoveVisit_inactive ops STRICT x fa fp st u (hfa _ _ _), ih]

theorem ratioLeTol_zero (N : Nat) (tol : ℚ) (hN : 0 < N) (htol : 0 ≤ tol) :
    ratioLeTol 0 N tol = true := by
  apply ratioLeTol_of_le 0 N tol hN
  simpa using htol

/-- With nothing active, a positive cap, a non-negative tolerance and a
non-empty graph, the loop makes exactly one pass and changes nothing but
the counter `l`. -/
theorem rakSeqLoop_all_inactive {σ : Type} (ops : RakOps) (STRICT : Bool) (x : Graph)
    (tol : ℚ) (fa : σ → List Nat → Nat → Bool) (fp : σ → List Nat → Nat → σ)
    (hfa : ∀ s v u, fa s v u = false) (hN : 0 < x.order) (htol : 0 ≤ tol)
    (n : Nat) (hn : 0 < n) (s : SeqState σ) :
    rakSeqLoop ops STRICT x tol fa fp n s =
      { l := s.l + 1, buf := s.buf, vcom := s.vcom, env := s.env } := by
  obtain ⟨m, rfl⟩ : ∃ m, n = m + 1 := ⟨n - 1, by omega⟩
  have hp : rakSeqPass ops STRICT x fa fp s =
      (0, { l := s.l + 1, buf := s.buf, vcom := s.vcom, env := s.env }) := by
    simp only [rakSeqPass, rakMoveIteration, rakMoveFrom_all_inactive ops STRICT x fa fp hfa]
  simp only [rakSeqLoop, hp, ratioLeTol_zero x.order tol hN htol, if_true]

/-- C10: on a graph with `N > 0`, for any tolerance `≥ 0`, any cap `≥ 1` and
`repeat ≥ 1`, if the active predicate is false for every vertex then (a) a
pass from any assignment returns `0` changes and leaves assignment, buffers
and callback state as they were, and (b) `rakSeq` returns iteration count
exactly `1` and the assignment its passes started from; (c) so does
`rakSeqDynamicDeltaScreening` whenever the flag array it is given marks no
vertex. -/
theorem rakSeq_empty_active_set {σ : Type} (ops : RakOps) (STRICT : Bool) (x : Graph)
    (q : Option (List Nat)) (o : RakOptions)
    (fa : σ → List Nat → Nat → Bool) (fp : σ → List Nat → Nat → σ) (env : σ)
    (hN : 0 < x.order) (htol : 0 ≤ o.tolerance) (hm : 1 ≤ o.maxIterations)
    (hr : 1 ≤ o.repeatCount) (hfa : ∀ s v u, fa s v u = false) :
    (∀ (buf : Scratch) (vcom : List Nat) (e : σ),
      rakMoveIteration ops STRICT buf vcom x fa fp e =
        { buf := buf, vcom := vcom, a := 0, env := e }) ∧
    ((rakSeq ops STRICT x q o fa fp env).iterations = 1 ∧
      (rakSeq ops STRICT x q o fa fp env).membership =
        (rakSeqStart ops STRICT x o fa fp env).vcom) ∧
    (∀ (deletions : Deletions) (insertions : Insertions) (p : List Nat),
      (∀ u, isAffected (ops.affectedDeltaScreening STRICT x deletions insertions p) u = false) →
      (rakSeqDynamicDeltaScreening ops STRICT x deletions insertions p o).iterations = 1 ∧
      (rakSeqDynamicDeltaScreening ops STRICT x deletions insertions p o).membership =
        (rakSeqStart ops STRICT x o
          (fixedActive (isAffected (ops.affectedDeltaScreening STRICT x deletions insertions p)))
          noCallback ()).vcom) := by
  have hrun : ∀ (τ : Type) (ga : τ → List Nat → Nat → Bool) (gp : τ → List Nat → Nat → τ)
      (e : τ) (p : Option (List Nat)), (∀ s v u, ga s v u = false) →
      (rakSeq ops STRICT x p o ga gp e).iterations = 1 ∧
        (rakSeq ops STRICT x p o ga gp e).membership =
          (rakSeqStart ops STRICT x o ga gp e).vcom := by
    intro τ ga gp e p hga
    have hfin := rakSeqFinal_eq_loop ops STRICT x p o ga gp e hr
    rw [rakSeqLoop_all_inactive ops STRICT x o.tolerance ga gp hga hN htol _ (by omega)] at hfin
    refine ⟨?_, ?_⟩ <;> simp [rakSeq, hfin, rakSeqStart]
  refine ⟨fun buf vcom e => ?_, hrun σ fa fp env q hfa, ?_⟩
  · exact rakMoveFrom_all_inactive ops STRICT x fa fp hfa _ _
  · intro deletions insertions p hp
    exact hrun Unit _ noCallback () (some p) (fun _ _ u => hp u)

/-- Witness for C10: the path `1 - 2 - 3 - 4` with no active vertex. -/
theorem rakSeq_empty_active_set_witness :
    0 < path4.order ∧ 0 ≤ opts10.tolerance ∧ 1 ≤ opts10.maxIterations ∧
    1 ≤ opts10.repeatCount ∧ (∀ s v u, noneActive s v u = false) ∧
    ((∀ (buf : Scratch) (vcom : List Nat) (e : Unit),
      rakMoveIteration specOps false buf vcom path4 noneActive noCallback e =
        { buf := buf, vcom := vcom, a := 0, env := e }) ∧
    ((rakSeq specOps false path4 none opts10 noneActive noCallback ()).iterations = 1 ∧
      (rakSeq specOps false path4 none opts10 noneActive noCallback ()).membership =
        (rakSeqStart specOps false path4 opts10 noneActive noCallback ()).vcom) ∧
    (∀ (deletions : Deletions) (insertions : Insertions) (p : List Nat),
      (∀ u, isAffected (specOps.affectedDeltaScreening false path4 deletions insertions p) u
        = false) →
      (rakSeqDynamicDeltaScreening specOps false path4 deletions insertions p opts10).iterations
        = 1 ∧
      (rakSeqDynamicDeltaScreening specOps false path4 deletions insertions p opts10).membership =
        (rakSeqStart specOps false path4 opts10
          (fixedActive
            (isAffected (specOps.affectedDeltaScreening false path4 deletions insertions p)))
          noCallback ()).vcom)) :=
  ⟨by decide, le_refl _, by decide, by decide, fun _ _ _ => rfl,
    rakSeq_empty_active_set specOps false path4 none opts10 noneActive noCallback ()
      (by decide) (le_refl _) (by decide) (by decide) (fun _ _ _ => rfl)⟩

/-! ## C11: a pass without changes can be repeated -/

/-- A visit never lowers the counter. -/
theorem rakMoveVisit_a_ge {σ : Type} (ops : RakOps) (STRICT : Bool) (x : Graph)
    (fa : σ → List Nat → Nat → Bool) (fp : σ → List Nat → Nat → σ)
    (st : MoveState σ) (u : Nat) :
    st.a ≤ (rakMoveVisit ops STRICT x fa fp st u).a := by
  unfold rakMoveVisit
  split
  · exact le_refl _
  · dsimp only
    split
    · exact Nat.le_succ _
    · exact le_refl _

theorem rakMoveFrom_a_ge {σ : Type} (ops : RakOps) (STRICT : Bool) (x : Graph)
    (fa : σ → List Nat → Nat → Bool) (fp : σ → List Nat → Nat → σ)
    (ks : List Nat) (st : MoveState σ) :
    st.a ≤ (rakMoveFrom ops STRICT x fa fp ks st).a := by
  induction ks generalizing st with
  | nil => exact le_refl _
  | cons u ks ih =>
    rw [rakMoveFrom_cons]
    exact le_trans (rakMoveVisit_a_ge ops STRICT x fa fp st u) (ih _)

/-- A visit that leaves the counter alone leaves assignment and callback state
alone. -/
theorem rakMoveVisit_of_a_eq {σ : Type} (ops : RakOps) (STRICT : Bool) (x : Graph)
    (fa : σ → List Nat → Nat → Bool) (fp : σ → List Nat → Nat → σ)
    (st : MoveState σ) (u : Nat)
    (h : (rakMoveVisit ops STRICT x fa fp st u).a = st.a) :
    (rakMoveVisit ops STRICT x fa fp st u).vcom = st.vcom ∧
      (rakMoveVisit ops STRICT x fa fp st u).env = st.env := by
  unfold rakMoveVisit at h ⊢
  split
  · exact ⟨rfl, rfl⟩
  · rename_i hact
    rw [if_neg hact] at h
    dsimp only at h ⊢
    split
    · rename_i hc
      rw [if_pos hc] at h
      simp at h
    · exact ⟨rfl, rfl⟩

/-- Visits that leave the counter alone leave assignment and callback state
alone. -/
theorem rakMoveFrom_of_a_eq {σ : Type} (ops : RakOps) (STRICT : Bool) (x : Graph)
    (fa : σ → List Nat → Nat → Bool) (fp : σ → List Nat → Nat → σ)
    (ks : List Nat) (st : MoveState σ)
    (h : (rakMoveFrom ops STRICT x fa fp ks st).a = st.a) :
    (rakMoveFrom ops STRICT x fa fp ks st).vcom = st.vcom ∧
      (rakMoveFrom ops STRICT x fa fp ks st).env = st.env := by
  induction ks generalizing st with
  | nil => exact ⟨rfl, rfl⟩
  | cons u ks ih =>
    rw [rakMoveFrom_cons] at h ⊢
    have h1 := rakMoveVisit_a_ge ops STRICT x fa fp st u
    have h2 := rakMoveFrom_a_ge ops STRICT x fa fp ks (rakMoveVisit ops STRICT x fa fp st u)
    have hv : (rakMoveVisit ops STRICT x fa fp st u).a = st.a := by omega
    obtain ⟨hv1, hv2⟩ := rakMoveVisit_of_a_eq ops STRICT x fa fp st u hv
    obtain ⟨ih1, ih2⟩ := ih (rakMoveVisit ops STRICT x fa fp st u) (by omega)
    exact ⟨ih1.trans hv1, ih2.trans hv2⟩

/-- Two states that differ only in scratch buffers which clear to the same
buffers are taken by a visit to two such states. -/
theorem rakMoveVisit_scratch {σ : Type} (ops : RakOps) (STRICT : Bool) (x : Graph)
    (fa : σ → List Nat → Nat → Bool) (fp : σ → List Nat → Nat → σ)
    (st st' : MoveState σ) (u : Nat)
    (hv : st.vcom = st'.vcom) (ha : st.a = st'.a) (he : st.env = st'.env)
    (hb : ops.clearScan st.buf = ops.clearScan st'.buf) :
    (rakMoveVisit ops STRICT x fa fp st u).vcom = (rakMoveVisit ops STRICT x fa fp st' u).vcom ∧
    (rakMoveVisit ops STRICT x fa fp st u).a = (rakMoveVisit ops STRICT x fa fp st' u).a ∧
    (rakMoveVisit ops STRICT x fa fp st u).env = (rakMoveVisit ops STRICT x fa fp st' u).env ∧
    ops.clearScan (rakMoveVisit ops STRICT x fa fp st u).buf =
      ops.clearScan (rakMoveVisit ops STRICT x fa fp st' u).buf := by
  unfold rakMoveVisit
  rw [← hv, ← he, ← ha, ← hb]
  split
  · exact ⟨hv, ha, he, hb⟩
  · dsimp only
    split
    · exact ⟨rfl, rfl, rfl, rfl⟩
    · exact ⟨rfl, rfl, rfl, rfl⟩

theorem rakMoveFrom_scratch {σ : Type} (ops : RakOps) (STRICT : Bool) (x : Graph)
    (fa : σ → List Nat → Nat → Bool) (fp : σ → List Nat → Nat → σ)
    (ks : List Nat) (st st' : MoveState σ)
    (hv : st.vcom = st'.vcom) (ha : st.a = st'.a) (he : st.env = st'.env)
    (hb : ops.clearScan st.buf = ops.clearScan st'.buf) :
    (rakMoveFrom ops STRICT x fa fp ks st).vcom = (rakMoveFrom ops STRICT x fa fp ks st').vcom ∧
    (rakMoveFrom ops STRICT x fa fp ks st).a = (rakMoveFrom ops STRICT x fa fp ks st').a ∧
    (rakMoveFrom ops STRICT x fa fp ks st).env = (rakMoveFrom ops STRICT x fa fp ks st').env := by
  induction ks generalizing st st' with
  | nil => exact ⟨hv, ha, he⟩
  | cons u ks ih =>
    obtain ⟨h1, h2, h3, h4⟩ := rakMoveVisit_scratch ops STRICT x fa fp st st' u hv ha he hb
    rw [rakMoveFrom_cons, rakMoveFrom_cons]
    exact ih _ _ h1 h2 h3 h4

/-- When clearing after a scan gives back the cleared buffers, the buffers a
sequence of visits leaves behind clear to what the initial ones clear to. -/
theorem rakMoveFrom_clearScan {σ : Type} (ops : RakOps) (STRICT : Bool) (x : Graph)
    (fa : σ → List Nat → Nat → Bool) (fp : σ → List Nat → Nat → σ)
    (hclear : ∀ b u v,
      ops.clearScan (ops.scanCommunities (ops.clearScan b) x u v) = ops.clearScan b)
    (ks : List Nat) (st : MoveState σ) :
    ops.clearScan (rakMoveFrom ops STRICT x fa fp ks st).buf = ops.clearScan st.buf := by
  induction ks generalizing st with
  | nil => rfl
  | cons u ks ih =>
    rw [rakMoveFrom_cons, ih]
    unfold rakMoveVisit
    split
    · rfl
    · dsimp only
      split
      · exact hclear _ _ _
      · exact hclear _ _ _

/-- The loop stops at the same pass under a larger cap once a pass has met the
convergence test. -/
theorem rakSeqLoop_cap_mono {σ : Type} (ops : RakOps) (STRICT : Bool) (x : Graph) (tol : ℚ)
    (fa : σ → List Nat → Nat → Bool) (fp : σ → List Nat → Nat → σ)
    (n n' : Nat) (hn : n ≤ n') (s : SeqState σ)
    (hconv : ratioLeTol (rakSeqChanged ops STRICT x fa fp
        (rakSeqLoop ops STRICT x tol fa fp n s).l.toNat s) x.order tol = true)
    (hl0 : s.l = 0) (hpos : 1 ≤ (rakSeqLoop ops STRICT x tol fa fp n s).l) :
    rakSeqLoop ops STRICT x tol fa fp n' s = rakSeqLoop ops STRICT x tol fa fp n s := by
  obtain ⟨k, hk, hk1, heq, hbefore, hat⟩ := rakSeqLoop_stops ops STRICT x tol fa fp n s
  obtain ⟨k', hk', hk1', heq', hbefore', hat'⟩ := rakSeqLoop_stops ops STRICT x tol fa fp n' s
  have hlk : (rakSeqLoop ops STRICT x tol fa fp n s).l = (k : Int) := by
    rw [heq, rakSeqPasses_l, hl0]
    simp
  rw [hlk] at hconv hpos
  simp only [Int.toNat_ofNat] at hconv
  have hkpos : 1 ≤ k := by omega
  have hk'pos : 1 ≤ k' := hk1' (by omega)
  have hkk : k' = k := by
    rcases Nat.lt_trichotomy k' k with hlt | heq'' | hgt
    · have h1 := hat' (by omega)
      rw [hbefore k' hk'pos hlt] at h1
      exact absurd h1 (by decide)
    · exact heq''
    · have h1 := hbefore' k hkpos hgt
      rw [hconv] at h1
      exact absurd h1 (by decide)
  rw [heq', heq, hkk]

theorem scanAddFold_length (g : Nat × ℚ → Nat) (es : List (Nat × ℚ)) (b : List ℚ) :
    (es.foldl (fun b e => scanAdd b (g e) e.2) b).length = b.length := by
  induction es generalizing b with
  | nil => rfl
  | cons e es ih =>
    rw [List.foldl_cons, ih]
    unfold scanAdd
    exact List.length_set _ _ _

/-- The helpers written from the specification: clearing after a scan gives
back the cleared buffers. -/
theorem specOps_clear_after_scan (x : Graph) (b : Scratch) (u : Nat) (v : List Nat) :
    specOps.clearScan (specOps.scanCommunities (specOps.clearScan b) x u v) =
      specOps.clearScan b := by
  show rakClearScan (rakScanCommunities (rakClearScan b) x u v) = rakClearScan b
  unfold rakClearScan rakScanCommunities
  dsimp only
  rw [scanAddFold_length (fun e => v.getD e.1 0)]
  simp

/-- Idempotence of convergence within one execution of the timed body
(`repeat = 1`), for a graph with `N > 0`, tolerance `0`, any mode (any `fa`,
`fp` and callback state), and Scan/Clear helpers for which clearing after a
scan gives back the cleared buffers.  (a) A pass that returns `0` changes
leaves the assignment and the callback state (the active set) as they were,
and a further pass from the state it leaves returns `0` again and leaves
the assignment and the callback state unchanged.  (b) If the run has made at
least one pass and its last pass changed `0` vertices, then the run with any
cap `m' ≥ maxIterations` returns the same assignment and iteration count. -/
theorem rakSeq_converged_idempotent {σ : Type} (ops : RakOps) (STRICT : Bool) (x : Graph)
    (q : Option (List Nat)) (o : RakOptions)
    (fa : σ → List Nat → Nat → Bool) (fp : σ → List Nat → Nat → σ) (env : σ)
    (hN : 0 < x.order) (htol : o.tolerance = 0) (hrep : o.repeatCount = 1)
    (hclear : ∀ b u v,
      ops.clearScan (ops.scanCommunities (ops.clearScan b) x u v) = ops.clearScan b) :
    (∀ (buf : Scratch) (vcom : List Nat) (e : σ),
      (rakMoveIteration ops STRICT buf vcom x fa fp e).a = 0 →
      (rakMoveIteration ops STRICT buf vcom x fa fp e).vcom = vcom ∧
      (rakMoveIteration ops STRICT buf vcom x fa fp e).env = e ∧
      (rakMoveIteration ops STRICT (rakMoveIteration ops STRICT buf vcom x fa fp e).buf
        (rakMoveIteration ops STRICT buf vcom x fa fp e).vcom x fa fp
        (rakMoveIteration ops STRICT buf vcom x fa fp e).env).a = 0 ∧
      (rakMoveIteration ops STRICT (rakMoveIteration ops STRICT buf vcom x fa fp e).buf
        (rakMoveIteration ops STRICT buf vcom x fa fp e).vcom x fa fp
        (rakMoveIteration ops STRICT buf vcom x fa fp e).env).vcom = vcom ∧
      (rakMoveIteration ops STRICT (rakMoveIteration ops STRICT buf vcom x fa fp e).buf
        (rakMoveIteration ops STRICT buf vcom x fa fp e).vcom x fa fp
        (rakMoveIteration ops STRICT buf vcom x fa fp e).env).env = e) ∧
    (∀ m' : Int, o.maxIterations ≤ m' →
      1 ≤ (rakSeq ops STRICT x q o fa fp env).iterations →
      rakSeqChanged ops STRICT x fa fp (rakSeq ops STRICT x q o fa fp env).iterations.toNat
        (rakSeqStart ops STRICT x o fa fp env) = 0 →
      rakSeq ops STRICT x q { o with maxIterations := m' } fa fp env =
        rakSeq ops STRICT x q o fa fp env) := by
  refine ⟨?_, ?_⟩
  · intro buf vcom e h0
    have h1 := rakMoveFrom_of_a_eq ops STRICT x fa fp x.keys
      { buf := buf, vcom := vcom, a := 0, env := e } h0
    have hb := rakMoveFrom_clearScan ops STRICT x fa fp hclear x.keys
      { buf := buf, vcom := vcom, a := 0, env := e }
    have h2 := rakMoveFrom_scratch ops STRICT x fa fp x.keys
      { buf := (rakMoveIteration ops STRICT buf vcom x fa fp e).buf,
        vcom := (rakMoveIteration ops STRICT buf vcom x fa fp e).vcom, a := 0,
        env := (rakMoveIteration ops STRICT buf vcom x fa fp e).env }
      { buf := buf, vcom := vcom, a := 0, env := e } h1.1 rfl h1.2 hb
    refine ⟨h1.1, h1.2, ?_, ?_, ?_⟩
    · exact h2.2.1.trans h0
    · exact h2.1.trans h1.1
    · exact h2.2.2.trans h1.2
  · intro m' hm hpos hzero
    have hr : 1 ≤ o.repeatCount := by omega
    have hfin := rakSeqFinal_eq_loop ops STRICT x q o fa fp env hr
    have hfin' := rakSeqFinal_eq_loop ops STRICT x q { o with maxIterations := m' } fa fp env hr
    have hstart : rakSeqStart ops STRICT x { o with maxIterations := m' } fa fp env =
        rakSeqStart ops STRICT x o fa fp env := by
      simp [rakSeqStart, measureDuration, hrep]
    have hl : (rakSeq ops STRICT x q o fa fp env).iterations =
        (rakSeqLoop ops STRICT x o.tolerance fa fp o.maxIterations.toNat
          (rakSeqStart ops STRICT x o fa fp env)).l := by
      simp only [rakSeq, hfin]
    rw [hl] at hpos hzero
    have hmono := rakSeqLoop_cap_mono ops STRICT x o.tolerance fa fp
      o.maxIterations.toNat m'.toNat (by omega) (rakSeqStart ops STRICT x o fa fp env)
      (by rw [hzero]; exact ratioLeTol_zero _ _ hN (by rw [htol])) rfl hpos
    simp only [rakSeq, hfin, hfin', hstart]
    rw [hmono]

/-- The single-execution idempotence at a concrete input: the static run on
the path `1 - 2 - 3 - 4` with the helpers written from the specification,
tolerance `0` and cap `10`. -/
theorem rakSeq_converged_idempotent_witness :
    0 < path4.order ∧ opts10.tolerance = 0 ∧ opts10.repeatCount = 1 ∧
    (∀ b u v, specOps.clearScan (specOps.scanCommunities (specOps.clearScan b) path4 u v)
      = specOps.clearScan b) ∧
    ((∀ (buf : Scratch) (vcom : List Nat) (e : Unit),
      (rakMoveIteration specOps false buf vcom path4 (fixedActive (fun _ => true))
        noCallback e).a = 0 →
      (rakMoveIteration specOps false buf vcom path4 (fixedActive (fun _ => true))
        noCallback e).vcom = vcom ∧
      (rakMoveIteration specOps false buf vcom path4 (fixedActive (fun _ => true))
        noCallback e).env = e ∧
      (rakMoveIteration specOps false
        (rakMoveIteration specOps false buf vcom path4 (fixedActive (fun _ => true))
          noCallback e).buf
        (rakMoveIteration specOps false buf vcom path4 (fixedActive (fun _ => true))
          noCallback e).vcom path4 (fixedActive (fun _ => true)) noCallback
        (rakMoveIteration specOps false buf vcom path4 (fixedActive (fun _ => true))
          noCallback e).env).a = 0 ∧
      (rakMoveIteration specOps false
        (rakMoveIteration specOps false buf vcom path4 (fixedActive (fun _ => true))
          noCallback e).buf
        (rakMoveIteration specOps false buf vcom path4 (fixedActive (fun _ => true))
          noCallback e).vcom path4 (fixedActive (fun _ => true)) noCallback
        (rakMoveIteration specOps false buf vcom path4 (fixedActive (fun _ => true))
          noCallback e).env).vcom = vcom ∧
      (rakMoveIteration specOps false
        (rakMoveIteration specOps false buf vcom path4 (fixedActive (fun _ => true))
          noCallback e).buf
        (rakMoveIteration specOps false buf vcom path4 (fixedActive (fun _ => true))
          noCallback e).vcom path4 (fixedActive (fun _ => true)) noCallback
        (rakMoveIteration specOps false buf vcom path4 (fixedActive (fun _ => true))
          noCallback e).env).env = e) ∧
    (∀ m' : Int, opts10.maxIterations ≤ m' →
      1 ≤ (rakSeq specOps false path4 none opts10 (fixedActive (fun _ => true))
        noCallback ()).iterations →
      rakSeqChanged specOps false path4 (fixedActive (fun _ => true)) noCallback
        (rakSeq specOps false path4 none opts10 (fixedActive (fun _ => true))
          noCallback ()).iterations.toNat
        (rakSeqStart specOps false path4 opts10 (fixedActive (fun _ => true))
          noCallback ()) = 0 →
      rakSeq specOps false path4 none { opts10 with maxIterations := m' }
        (fixedActive (fun _ => true)) noCallback () =
        rakSeq specOps false path4 none opts10 (fixedActive (fun _ => true))
          noCallback ())) :=
  ⟨by decide, rfl, rfl, specOps_clear_after_scan path4,
    rakSeq_converged_idempotent specOps false path4 none opts10
      (fixedActive (fun _ => true)) noCallback () (by decide) rfl rfl
      (specOps_clear_after_scan path4)⟩

/-- C11, evaluated on the code: frontier mode on the weighted path
`1 - 2 - 3 - 4 - 5` after the insertion of the edge `4 - 5`, tolerance `0`,
`repeat = 2`.  With cap `2` the run stops because its second pass changed
`0` vertices and returns every vertex in community `1`, in `2` iterations.
With cap `3` it returns every vertex in community `2`.  The first execution
of the timed body does not converge under either cap, so under cap `3` it
makes one pass more and flags one vertex more; the flag array is not reset,
and the second execution starts from it.  No two candidate weights tie on
this input, and strict mode gives the same values. -/
theorem rakSeqDynamicFrontier_cap_changes_result :
    rakSeqDynamicFrontier specOps false path5 [] insert45 [0, 1, 2, 3, 4, 5] optsTwiceCap2
      = { membership := [0, 1, 1, 1, 1, 1], iterations := 2 } ∧
    rakSeqChanged specOps false path5 frontierFa (frontierFp path5) 2
      (rakSeqStart specOps false path5 optsTwiceCap2 frontierFa (frontierFp path5)
        (specOps.affectedFrontier path5 [] insert45 [0, 1, 2, 3, 4, 5])) = 0 ∧
    optsTwiceCap2.maxIterations ≤ optsTwiceCap3.maxIterations ∧
    rakSeqDynamicFrontier specOps false path5 [] insert45 [0, 1, 2, 3, 4, 5] optsTwiceCap3
      = { membership := [0, 2, 2, 2, 2, 2], iterations := 2 } ∧
    rakSeqDynamicFrontier specOps true path5 [] insert45 [0, 1, 2, 3, 4, 5] optsTwiceCap2
      = { membership := [0, 1, 1, 1, 1, 1], iterations := 2 } ∧
    rakSeqDynamicFrontier specOps true path5 [] insert45 [0, 1, 2, 3, 4, 5] optsTwiceCap3
      = { membership := [0, 2, 2, 2, 2, 2], iterations := 2 } := by
  refine ⟨?_, ?_, ?_, ?_, ?_, ?_⟩ <;> decide!

/-! ## C12: the number of changes is at most the number of vertices -/

/-- A visit raises the counter by at most one. -/
theorem rakMoveVisit_a_le {σ : Type} (ops : RakOps) (STRICT : Bool) (x : Graph)
    (fa : σ → List Nat → Nat → Bool) (fp : σ → List Nat → Nat → σ)
    (st : MoveState σ) (u : Nat) :
    (rakMoveVisit ops STRICT x fa fp st u).a ≤ st.a + 1 := by
  unfold rakMoveVisit
  split
  · exact Nat.le_succ _
  · dsimp only
    split
    · exact le_refl _
    · exact Nat.le_succ _

theorem rakMoveFrom_a_le {σ : Type} (ops : RakOps) (STRICT : Bool) (x : Graph)
    (fa : σ → List Nat → Nat → Bool) (fp : σ → List Nat → Nat → σ)
    (ks : List Nat) (st : MoveState σ) :
    (rakMoveFrom ops STRICT x fa fp ks st).a ≤ st.a + ks.length := by
  induction ks generalizing st with
  | nil => exact le_refl _
  | cons u ks ih =>
    rw [rakMoveFrom_cons, List.length_cons]
    have h1 := ih (rakMoveVisit ops STRICT x fa fp st u)
    have h2 := rakMoveVisit_a_le ops STRICT x fa fp st u
    omega

/-- C12: for every graph, with `N = order()` the number of vertices that
`forEachVertexKey` visits, every assignment, every active predicate and
every callback, the number of changed vertices that `rakMoveIteration`
returns lies in `[0, N]`. -/
theorem rakMoveIteration_changed_le_order {σ : Type} (ops : RakOps) (STRICT : Bool)
    (buf : Scratch) (vcom : List Nat) (x : Graph)
    (fa : σ → List Nat → Nat → Bool) (fp : σ → List Nat → Nat → σ) (env : σ) :
    0 ≤ (rakMoveIteration ops STRICT buf vcom x fa fp env).a ∧
      (rakMoveIteration ops STRICT buf vcom x fa fp env).a ≤ x.order := by
  refine ⟨Nat.zero_le _, ?_⟩
  have h := rakMoveFrom_a_le ops STRICT x fa fp x.keys
    { buf := buf, vcom := vcom, a := 0, env := env }
  simpa [rakMoveIteration, Graph.order] using h

/-! ## C13: strict and non-strict passes -/

/-- In strict mode Community Choice, as written from the specification,
returns either the current community or what non-strict mode returns. -/
theorem rakChooseCommunity_strict (x : Graph) (u : Nat) (vcom : List Nat) (buf : Scratch) :
    (rakChooseCommunity true x u vcom buf).1 = vcom.getD u 0 ∨
      rakChooseCommunity true x u vcom buf = rakChooseCommunity false x u vcom buf := by
  unfold rakChooseCommunity
  cases buf.vcs with
  | nil => exact Or.inr rfl
  | cons c cs =>
    dsimp only
    rw [if_pos rfl, if_neg (by decide : ¬ (false = true))]
    split
    · exact Or.inr rfl
    · exact Or.inl rfl

/-- Community Choice as written from the specification satisfies the strict
contract. -/
theorem specOps_choose_strict (x : Graph) (u : Nat) (v : List Nat) (b : Scratch) :
    (specOps.chooseCommunity true x u v b).1 = v.getD u 0 ∨
      (specOps.chooseCommunity true x u v b).1 = (specOps.chooseCommunity false x u v b).1 := by
  rcases rakChooseCommunity_strict x u v b with h | h
  · exact Or.inl h
  · exact Or.inr (congrArg Prod.fst h)

/-- C13 fails on the code: on `tieGraph` from the assignment `tieStart`, with
every vertex active, the strict pass changes `2` vertices and the non-strict
pass changes `1`.  Non-strict moves the tied vertex `1` to community `2`,
after which `2` and `3` stay; strict keeps `1` in community `5`, after
which `2` and `3` both move to `5`. -/
theorem strict_pass_can_change_more :
    staticChanges true tieGraph tieStart = 2 ∧ staticChanges false tieGraph tieStart = 1 ∧
    ¬ (staticChanges true tieGraph tieStart ≤ staticChanges false tieGraph tieStart) := by
  refine ⟨?_, ?_, ?_⟩ <;> decide!

/-- C13 as amended: let Community Choice satisfy the strict contract, that
in strict mode it returns the current community `d` or else the community
non-strict mode returns (same tie-break).  Then for every graph, every state
and every vertex `u`, the visit of `u` in strict mode and the visit in
non-strict mode from that same state satisfy: if the strict visit changes
`u` then the non-strict visit changes `u` too, to the same community,
leaving the same assignment and callback state; so the change count of the
strict visit is at most that of the non-strict visit.  Scan, Clear, `fa`
and `fp` are arbitrary. -/
theorem strict_visit_le_nonstrict {σ : Type} (ops : RakOps) (x : Graph)
    (fa : σ → List Nat → Nat → Bool) (fp : σ → List Nat → Nat → σ)
    (st : MoveState σ) (u : Nat)
    (hstrict : ∀ (v : List Nat) (b : Scratch),
      (ops.chooseCommunity true x u v b).1 = v.getD u 0 ∨
        (ops.chooseCommunity true x u v b).1 = (ops.chooseCommunity false x u v b).1) :
    ((rakMoveVisit ops true x fa fp st u).a = st.a + 1 →
      (rakMoveVisit ops false x fa fp st u).a = st.a + 1 ∧
      (rakMoveVisit ops false x fa fp st u).vcom = (rakMoveVisit ops true x fa fp st u).vcom ∧
      (rakMoveVisit ops false x fa fp st u).env = (rakMoveVisit ops true x fa fp st u).env) ∧
    (rakMoveVisit ops true x fa fp st u).a ≤ (rakMoveVisit ops false x fa fp st u).a := by
  have key : (rakMoveVisit ops true x fa fp st u).a = st.a + 1 →
      rakMoveVisit ops false x fa fp st u = rakMoveVisit ops true x fa fp st u := by
    intro h
    unfold rakMoveVisit at h ⊢
    by_cases hact : fa st.env st.vcom u = false
    · rw [if_pos hact] at h
      omega
    · rw [if_neg hact] at h ⊢
      rw [if_neg hact]
      dsimp only at h ⊢
      rcases hstrict st.vcom (ops.scanCommunities (ops.clearScan st.buf) x u st.vcom)
        with hd | heq
      · rw [if_neg (fun hc => hc.2 hd)] at h
        dsimp only at h
        omega
      · rw [heq]
  refine ⟨fun h => ?_, ?_⟩
  · rw [key h]
    exact ⟨h, rfl, rfl⟩
  · by_cases h : (rakMoveVisit ops true x fa fp st u).a = st.a + 1
    · rw [key h]
    · have h1 := rakMoveVisit_a_le ops true x fa fp st u
      have h2 := rakMoveVisit_a_ge ops false x fa fp st u
      omega

/-- Witness for C13 as amended: the visit of vertex `2` of `tieGraph` from
the assignment `tieStart`, which strict mode changes. -/
theorem strict_visit_le_nonstrict_witness :
    (∀ (v : List Nat) (b : Scratch),
      (specOps.chooseCommunity true tieGraph 2 v b).1 = v.getD 2 0 ∨
        (specOps.chooseCommunity true tieGraph 2 v b).1 =
          (specOps.chooseCommunity false tieGraph 2 v b).1) ∧
    (((rakMoveVisit specOps true tieGraph allActive logCall
        { buf := { vcs := [], vcout := List.replicate 6 0 }, vcom := tieStart, a := 0,
          env := [] } 2).a = 0 + 1 →
      (rakMoveVisit specOps false tieGraph allActive logCall
        { buf := { vcs := [], vcout := List.replicate 6 0 }, vcom := tieStart, a := 0,
          env := [] } 2).a = 0 + 1 ∧
      (rakMoveVisit specOps false tieGraph allActive logCall
        { buf := { vcs := [], vcout := List.replicate 6 0 }, vcom := tieStart, a := 0,
          env := [] } 2).vcom =
        (rakMoveVisit specOps true tieGraph allActive logCall
          { buf := { vcs := [], vcout := List.replicate 6 0 }, vcom := tieStart, a := 0,
            env := [] } 2).vcom ∧
      (rakMoveVisit specOps false tieGraph allActive logCall
        { buf := { vcs := [], vcout := List.replicate 6 0 }, vcom := tieStart, a := 0,
          env := [] } 2).env =
        (rakMoveVisit specOps true tieGraph allActive logCall
          { buf := { vcs := [], vcout := List.replicate 6 0 }, vcom := tieStart, a := 0,
            env := [] } 2).env) ∧
    (rakMoveVisit specOps true tieGraph allActive logCall
        { buf := { vcs := [], vcout := List.replicate 6 0 }, vcom := tieStart, a := 0,
          env := [] } 2).a ≤
      (rakMoveVisit specOps false tieGraph allActive logCall
        { buf := { vcs := [], vcout := List.replicate 6 0 }, vcom := tieStart, a := 0,
          env := [] } 2).a) :=
  ⟨specOps_choose_strict tieGraph 2,
    strict_visit_le_nonstrict specOps tieGraph allActive logCall
      { buf := { vcs := [], vcout := List.replicate 6 0 }, vcom := tieStart, a := 0,
        env := [] } 2 (specOps_choose_strict tieGraph 2)⟩

/-! ## C14: frontier and delta-screening active sets -/

/-- In the frontier mode a listed vertex whose flag is set when a sequence of
visits begins is visited as active. -/
theorem frontier_flagged_is_visited (ops : RakOps) (STRICT : Bool) (x : Graph)
    (ks : List Nat) (st : MoveState (List Bool)) (u : Nat) (hu : u ∈ ks)
    (hflag : isAffected st.env u = true) :
    u ∈ rakActiveVisits ops STRICT x frontierFa (frontierFp x) ks st := by
  induction ks generalizing st with
  | nil => cases hu
  | cons w ks ih =>
    unfold rakActiveVisits
    by_cases hw : u = w
    · subst hw
      have : frontierFa st.env st.vcom u = true := hflag
      simp [this]
    · have hmem : u ∈ ks := by
        rcases List.mem_cons.mp hu with h | h
        · exact absurd h hw
        · exact h
      exact List.mem_append_right _
        (ih _ hmem (frontier_visit_mono ops STRICT x st w u hflag))

/-- The first pass of a loop with a positive cap is part of what the loop
visits. -/
theorem rakSeqLoopVisits_first {σ : Type} (ops : RakOps) (STRICT : Bool) (x : Graph)
    (tol : ℚ) (fa : σ → List Nat → Nat → Bool) (fp : σ → List Nat → Nat → σ)
    (n : Nat) (hn : 0 < n) (s : SeqState σ) (u : Nat)
    (hu : u ∈ rakSeqPassVisits ops STRICT x fa fp s) :
    u ∈ rakSeqLoopVisits ops STRICT x tol fa fp n s := by
  obtain ⟨m, rfl⟩ : ∃ m, n = m + 1 := ⟨n - 1, by omega⟩
  unfold rakSeqLoopVisits
  dsimp only
  split
  · exact hu
  · exact List.mem_append_left _ hu

/-- C14 fails on the code as stated for every run configuration: on the
path `1 - 2 - 3 - 4` after the insertion of the edge `2 - 3`, with cap
`maxIterations = 0`, vertex `2` is in the fixed active set of delta-screening
but the frontier run visits no vertex at all. -/
theorem frontier_visits_nothing_without_pass :
    2 ∈ path4.keys ∧
    deltaScreeningActive specOps false path4 [] insert23 [0, 1, 2, 3, 4] 2 = true ∧
    rakSeqDynamicFrontierVisits specOps false path4 [] insert23 [0, 1, 2, 3, 4] opts0 = [] ∧
    2 ∉ rakSeqDynamicFrontierVisits specOps false path4 [] insert23 [0, 1, 2, 3, 4] opts0 := by
  refine ⟨?_, ?_, ?_, ?_⟩ <;> decide!

/-- C14 as amended: let the seed of the frontier mode contain the fixed
active set of delta-screening for the same graph, prior assignment and edit
(the specification gives both modes the same seed).  Then (a) in every run
of `rakSeqDynamicFrontier` that makes at least one pass (`repeat ≥ 1`,
`maxIterations ≥ 1`), every valid vertex of the delta-screening set is
visited as active; and (b) for every run configuration, every vertex of the
delta-screening set is flagged active when the frontier run ends. -/
theorem frontier_visits_superset (ops : RakOps) (STRICT : Bool) (x : Graph)
    (deletions : Deletions) (insertions : Insertions) (q : List Nat) (o : RakOptions)
    (hseed : ∀ u, deltaScreeningActive ops STRICT x deletions insertions q u = true →
      isAffected (ops.affectedFrontier x deletions insertions q) u = true) :
    (1 ≤ o.repeatCount → 1 ≤ o.maxIterations →
      ∀ u ∈ x.keys, deltaScreeningActive ops STRICT x deletions insertions q u = true →
        u ∈ rakSeqDynamicFrontierVisits ops STRICT x deletions insertions q o) ∧
    (∀ u, deltaScreeningActive ops STRICT x deletions insertions q u = true →
      isAffected (rakSeqDynamicFrontierFinal ops STRICT x deletions insertions q o).env u
        = true) := by
  refine ⟨?_, ?_⟩
  · intro hr hm u hu hd
    obtain ⟨r, hrr⟩ : ∃ r : Nat, o.repeatCount.toNat = r + 1 :=
      ⟨o.repeatCount.toNat - 1, by omega⟩
    unfold rakSeqDynamicFrontierVisits
    rw [hrr]
    unfold rakSeqRunVisits
    apply List.mem_append_left
    unfold rakSeqBodyVisits
    apply rakSeqLoopVisits_first ops STRICT x o.tolerance _ _ _ (by omega)
    exact frontier_flagged_is_visited ops STRICT x x.keys _ u hu (hseed u hd)
  · intro u hd
    exact frontier_repeat_mono ops STRICT x o _ _ u (hseed u hd)

/-- Witness for C14 as amended: the path `1 - 2 - 3 - 4` after the insertion
of the edge `2 - 3`, with the collaborators written from the specification
and cap `10`. -/
theorem frontier_visits_superset_witness :
    (∀ u, deltaScreeningActive specOps false path4 [] insert23 [0, 1, 2, 3, 4] u = true →
      isAffected (specOps.affectedFrontier path4 [] insert23 [0, 1, 2, 3, 4]) u = true) ∧
    ((1 ≤ opts10.repeatCount → 1 ≤ opts10.maxIterations →
      ∀ u ∈ path4.keys,
        deltaScreeningActive specOps false path4 [] insert23 [0, 1, 2, 3, 4] u = true →
        u ∈ rakSeqDynamicFrontierVisits specOps false path4 [] insert23 [0, 1, 2, 3, 4] opts10) ∧
    (∀ u, deltaScreeningActive specOps false path4 [] insert23 [0, 1, 2, 3, 4] u = true →
      isAffected (rakSeqDynamicFrontierFinal specOps false path4 [] insert23
        [0, 1, 2, 3, 4] opts10).env u = true)) :=
  ⟨fun _ h => h,
    frontier_visits_superset specOps false path4 [] insert23 [0, 1, 2, 3, 4] opts10
      (fun _ h => h)⟩

/-! ## C15: the four-vertex path -/

/-- C15: on the symmetric path `0 - 1 - 2 - 3` with unit weights,
`rakSeqStatic` with tolerance `0` and cap `10`, Scan and Choice as written
from the specification (ties to the smaller id), returns the assignment
`[1, 1, 1, 1]` after `2` iterations, in non-strict and in strict mode: the
iteration count is at most `3`, the last pass changed `0` vertices (the
first changed `3`), and the returned assignment uses at most `2` distinct
labels. -/
theorem rakSeqStatic_path_example :
    rakSeqStatic specOps false path0123 none opts10
      = { membership := [1, 1, 1, 1], iterations := 2 } ∧
    rakSeqStatic specOps true path0123 none opts10
      = { membership := [1, 1, 1, 1], iterations := 2 } ∧
    (rakSeqStatic specOps false path0123 none opts10).iterations ≤ 3 ∧
    rakSeqChanged specOps false path0123 (fixedActive (fun _ => true)) noCallback 1
      (rakSeqStart specOps false path0123 opts10 (fixedActive (fun _ => true))
        noCallback ()) = 3 ∧
    rakSeqChanged specOps false path0123 (fixedActive (fun _ => true)) noCallback
      (rakSeqStatic specOps false path0123 none opts10).iterations.toNat
      (rakSeqStart specOps false path0123 opts10 (fixedActive (fun _ => true))
        noCallback ()) = 0 ∧
    (rakSeqStatic specOps false path0123 none opts10).membership.dedup.length ≤ 2 := by
  refine ⟨?_, ?_, ?_, ?_, ?_, ?_⟩ <;> decide!

/-! ## C16: community `0` never gains a member -/

/-- A visit writes no `0` into the assignment. -/
theorem rakMoveVisit_zero {σ : Type} (ops : RakOps) (STRICT : Bool) (x : Graph)
    (fa : σ → List Nat → Nat → Bool) (fp : σ → List Nat → Nat → σ)
    (st : MoveState σ) (u v : Nat)
    (h : (rakMoveVisit ops STRICT x fa fp st u).vcom.getD v 0 = 0) :
    st.vcom.getD v 0 = 0 := by
  unfold rakMoveVisit at h
  split at h
  · exact h
  · dsimp only at h
    split at h
    · rename_i hc
      by_cases hvu : v = u
      · subst hvu
        by_cases hlt : v < st.vcom.length
        · simp [List.getD_eq_getElem?_getD, List.getElem?_set, hlt] at h
          exact absurd h hc.1
        · rw [List.set_eq_of_length_le (by omega)] at h
          exact h
      · simpa [List.getD_eq_getElem?_getD, List.getElem?_set, Ne.symm hvu] using h
    · exact h

theorem rakMoveFrom_zero {σ : Type} (ops : RakOps) (STRICT : Bool) (x : Graph)
    (fa : σ → List Nat → Nat → Bool) (fp : σ → List Nat → Nat → σ)
    (ks : List Nat) (st : MoveState σ) (v : Nat)
    (h : (rakMoveFrom ops STRICT x fa fp ks st).vcom.getD v 0 = 0) :
    st.vcom.getD v 0 = 0 := by
  induction ks generalizing st with
  | nil => exact h
  | cons u ks ih =>
    rw [rakMoveFrom_cons] at h
    exact rakMoveVisit_zero ops STRICT x fa fp st u v (ih _ h)

theorem rakSeqLoop_zero {σ : Type} (ops : RakOps) (STRICT : Bool) (x : Graph) (tol : ℚ)
    (fa : σ → List Nat → Nat → Bool) (fp : σ → List Nat → Nat → σ)
    (n : Nat) (s : SeqState σ) (v : Nat)
    (h : (rakSeqLoop ops STRICT x tol fa fp n s).vcom.getD v 0 = 0) :
    s.vcom.getD v 0 = 0 := by
  induction n generalizing s with
  | zero => exact h
  | succ n ih =>
    have hp : (rakSeqPass ops STRICT x fa fp s).2.vcom.getD v 0 = 0 → s.vcom.getD v 0 = 0 := by
      intro h'
      simp only [rakSeqPass, rakMoveIteration] at h'
      exact rakMoveFrom_zero ops STRICT x fa fp _ _ v h'
    simp only [rakSeqLoop] at h
    split at h
    · exact hp h
    · exact hp (ih _ h)

/-- C16: community `0` never gains members.  (a) For every graph,
assignment, active predicate, callback and Scan/Choice helpers, every vertex
whose community is `0` after a `rakMoveIteration` pass had community `0`
before it.  (b) In `rakSeqStatic`, with `rakInitialize` as the specification
describes it, on a graph whose valid ids lie in the id domain and for every
configuration with `repeat ≥ 1`, the returned assignment has
`community[u] ≠ 0` for every valid vertex `u ≠ 0`. -/
theorem community_zero_never_gains {σ : Type} (ops : RakOps) (STRICT : Bool) (x : Graph)
    (fa : σ → List Nat → Nat → Bool) (fp : σ → List Nat → Nat → σ) :
    (∀ (buf : Scratch) (vcom : List Nat) (env : σ) (u : Nat),
      (rakMoveIteration ops STRICT buf vcom x fa fp env).vcom.getD u 0 = 0 →
      vcom.getD u 0 = 0) ∧
    (ops.initCommunities = rakInitialize → (∀ u ∈ x.keys, u < x.span) →
      ∀ (q : Option (List Nat)) (o : RakOptions), 1 ≤ o.repeatCount →
      ∀ u ∈ x.keys, u ≠ 0 → (rakSeqStatic ops STRICT x q o).membership.getD u 0 ≠ 0) := by
  refine ⟨?_, ?_⟩
  · intro buf vcom env u h
    exact rakMoveFrom_zero ops STRICT x fa fp x.keys _ u h
  · intro hinit hwf q o hr u hu hu0 hzero
    have hfin := rakSeqFinal_eq_loop ops STRICT x q o
      (fixedActive (fun _ => true)) (noCallback (σ := Unit)) () hr
    simp only [rakSeqStatic, rakSeqAll, rakSeqFa, rakSeq, hfin] at hzero
    have h0 := rakSeqLoop_zero ops STRICT x o.tolerance _ _ _ _ u hzero
    rw [rakSeqStart_singletons ops STRICT x o _ _ () hinit u hu (hwf u hu)] at h0
    exact hu0 h0

/-- Witness for C16: the path `0 - 1 - 2 - 3`, whose vertex `0` starts in
community `0`; the static run leaves vertex `1` outside community `0`. -/
theorem community_zero_never_gains_witness :
    (rakSeqStatic specOps false path0123 none opts10).membership.getD 1 0 ≠ 0 :=
  (community_zero_never_gains specOps false path0123 allActive logCall).2 rfl
    (by decide) none opts10 (by decide) 1 (by decide) (by decide)

/-! ## C17: the change count is bounded by the active set -/

/-- With a fixed predicate `f`, visits raise the counter by at most the number
of listed vertices that `f` admits. -/
theorem rakMoveFrom_a_le_active {σ : Type} (ops : RakOps) (STRICT : Bool) (x : Graph)
    (f : Nat → Bool) (fp : σ → List Nat → Nat → σ) (ks : List Nat) (st : MoveState σ) :
    (rakMoveFrom ops STRICT x (fixedActive f) fp ks st).a ≤ st.a + (ks.filter f).length := by
  induction ks generalizing st with
  | nil => exact le_refl _
  | cons u ks ih =>
    rw [rakMoveFrom_cons]
    have h1 := ih (rakMoveVisit ops STRICT x (fixedActive f) fp st u)
    by_cases hf : f u = true
    · have h2 := rakMoveVisit_a_le ops STRICT x (fixedActive f) fp st u
      simp only [List.filter_cons, hf, if_true, List.length_cons]
      omega
    · have hf' : f u = false := by simpa using hf
      rw [rakMoveVisit_inactive ops STRICT x (fixedActive f) fp st u hf'] at h1 ⊢
      simp only [List.filter_cons, hf, if_false]
      exact h1

/-- C17: with a fixed active predicate `f` and no `fp`, on a graph with
`N > 0`, for `maxIterations ≥ 1` and `repeat ≥ 1`: (a) the change count every
pass returns is at most the number of valid vertices `u` with `f u` true;
(b) if that number divided by `N` is at most the tolerance, `rakSeq` makes
exactly one pass (iteration count `1`); (c) likewise
`rakSeqDynamicDeltaScreening`, with the predicate of its flag array. -/
theorem rakSeq_fixed_active_bound {σ : Type} (ops : RakOps) (STRICT : Bool) (x : Graph)
    (q : Option (List Nat)) (o : RakOptions) (f : Nat → Bool) (env : σ)
    (hN : 0 < x.order) (hm : 1 ≤ o.maxIterations) (hr : 1 ≤ o.repeatCount) :
    (∀ (buf : Scratch) (vcom : List Nat) (e : σ),
      (rakMoveIteration ops STRICT buf vcom x (fixedActive f) noCallback e).a
        ≤ (x.keys.filter f).length) ∧
    ((((x.keys.filter f).length : ℚ) / (x.order : ℚ) ≤ o.tolerance) →
      (rakSeqFa ops STRICT x q o (fixedActive f) env).iterations = 1) ∧
    (∀ (deletions : Deletions) (insertions : Insertions) (p : List Nat),
      (((x.keys.filter (deltaScreeningActive ops STRICT x deletions insertions p)).length : ℚ)
        / (x.order : ℚ) ≤ o.tolerance) →
      (rakSeqDynamicDeltaScreening ops STRICT x deletions insertions p o).iterations = 1) := by
  have hpass : ∀ (τ : Type) (g : Nat → Bool) (buf : Scratch) (vcom : List Nat) (e : τ),
      (rakMoveIteration ops STRICT buf vcom x (fixedActive g) noCallback e).a
        ≤ (x.keys.filter g).length := by
    intro τ g buf vcom e
    have h := rakMoveFrom_a_le_active ops STRICT x g (noCallback (σ := τ)) x.keys
      { buf := buf, vcom := vcom, a := 0, env := e }
    simpa [rakMoveIteration] using h
  have hrun : ∀ (τ : Type) (g : Nat → Bool) (e : τ) (p : Option (List Nat)),
      (((x.keys.filter g).length : ℚ) / (x.order : ℚ) ≤ o.tolerance) →
      (rakSeqFa ops STRICT x p o (fixedActive g) e).iterations = 1 := by
    intro τ g e p htol
    have hfin := rakSeqFinal_eq_loop ops STRICT x p o (fixedActive g) (noCallback (σ := τ)) e hr
    obtain ⟨n, hn⟩ : ∃ n, o.maxIterations.toNat = n + 1 :=
      ⟨o.maxIterations.toNat - 1, by omega⟩
    have hconv : ratioLeTol
        (rakSeqPass ops STRICT x (fixedActive g) (noCallback (σ := τ))
          (rakSeqStart ops STRICT x o (fixedActive g) noCallback e)).1 x.order o.tolerance
        = true := by
      apply ratioLeTol_of_le _ _ _ hN
      refine le_trans ?_ htol
      have hNq : (0 : ℚ) < (x.order : ℚ) := by exact_mod_cast hN
      apply div_le_div_of_nonneg_right _ (le_of_lt hNq)
      exact_mod_cast hpass τ g _ _ _
    simp only [rakSeqFa, rakSeq, hfin, hn, rakSeqLoop, hconv, if_true]
    simp [rakSeqPass, rakSeqStart]
  refine ⟨hpass σ f, hrun σ f env q, ?_⟩
  intro deletions insertions p htol
  exact hrun Unit _ () (some p) htol

/-- Witness for C17: the path `1 - 2 - 3 - 4` with vertices `2` and `3`
active (`2` of `4` vertices) and tolerance `1/2`: the run makes one pass. -/
theorem rakSeq_fixed_active_bound_witness :
    0 < path4.order ∧ 1 ≤ optsHalf.maxIterations ∧ 1 ≤ optsHalf.repeatCount ∧
    (((path4.keys.filter seed23).length : ℚ) / (path4.order : ℚ) ≤ optsHalf.tolerance) ∧
    (rakSeqFa specOps false path4 none optsHalf (fixedActive seed23) ()).iterations = 1 :=
  ⟨by decide, by decide, by decide, by decide!,
    (rakSeq_fixed_active_bound specOps false path4 none optsHalf seed23 ()
      (by decide) (by decide) (by decide)).2.1 (by decide!)⟩

/-! ## C18: frontier activation within the pass -/

/-- Only listed vertices are visited. -/
theorem rakActiveVisits_subset {σ : Type} (ops : RakOps) (STRICT : Bool) (x : Graph)
    (fa : σ → List Nat → Nat → Bool) (fp : σ → List Nat → Nat → σ)
    (ks : List Nat) (st : MoveState σ) (w : Nat)
    (h : w ∈ rakActiveVisits ops STRICT x fa fp ks st) : w ∈ ks := by
  induction ks generalizing st with
  | nil => simp [rakActiveVisits] at h
  | cons u ks ih =>
    unfold rakActiveVisits at h
    rcases List.mem_append.mp h with h1 | h2
    · split at h1
      · rw [List.mem_singleton.mp h1]
        exact List.mem_cons_self _ _
      · cases h1
    · exact List.mem_cons_of_mem _ (ih _ h2)

theorem rakActiveVisits_append {σ : Type} (ops : RakOps) (STRICT : Bool) (x : Graph)
    (fa : σ → List Nat → Nat → Bool) (fp : σ → List Nat → Nat → σ)
    (ks ks' : List Nat) (st : MoveState σ) :
    rakActiveVisits ops STRICT x fa fp (ks ++ ks') st =
      rakActiveVisits ops STRICT x fa fp ks st ++
        rakActiveVisits ops STRICT x fa fp ks' (rakMoveFrom ops STRICT x fa fp ks st) := by
  induction ks generalizing st with
  | nil => rfl
  | cons u ks ih =>
    rw [List.cons_append, rakActiveVisits, rakActiveVisits, ih, rakMoveFrom_cons,
      List.append_assoc]

theorem frontier_visit_env_length (ops : RakOps) (STRICT : Bool) (x : Graph)
    (st : MoveState (List Bool)) (u : Nat) :
    (rakMoveVisit ops STRICT x frontierFa (frontierFp x) st u).env.length = st.env.length := by
  unfold rakMoveVisit
  split
  · rfl
  · dsimp only
    split
    · exact markFold_length _ _
    · rfl

theorem frontier_from_env_length (ops : RakOps) (STRICT : Bool) (x : Graph)
    (ks : List Nat) (st : MoveState (List Bool)) :
    (rakMoveFrom ops STRICT x frontierFa (frontierFp x) ks st).env.length = st.env.length := by
  induction ks generalizing st with
  | nil => rfl
  | cons u ks ih => rw [rakMoveFrom_cons, ih, frontier_visit_env_length]

/-- After an accepted move of `u`, reached in state `st`, each neighbour of
`u` inside the flag array is flagged. -/
theorem frontier_moved_flags (ops : RakOps) (STRICT : Bool) (x : Graph)
    (st : MoveState (List Bool)) (u v : Nat) (hact : isAffected st.env u = true)
    (hc0 : rakCandidate ops STRICT x st.buf st.vcom u ≠ 0)
    (hcd : rakCandidate ops STRICT x st.buf st.vcom u ≠ st.vcom.getD u 0)
    (hv : v ∈ x.edgeKeys u) (hlt : v < st.env.length) :
    isAffected (rakMoveVisit ops STRICT x frontierFa (frontierFp x) st u).env v = true := by
  rw [rakMoveVisit_moved ops STRICT x frontierFa (frontierFp x) st u hact ⟨hc0, hcd⟩]
  exact frontierMark_marks x st.env u v hv hlt

/-- C18: in the frontier mode the predicate reads the flag array when a
vertex is reached.  Let `u` be moved during a pass (it is reached active,
with candidate `c ≠ 0`, `c ≠ d`) and let `v` be a neighbour of `u` inside the
flag array.  (a) If `v` comes after `u` in the vertex order, then `v` is
flagged when it is reached and is visited as active in that same pass,
whatever its flag was when the pass began.  (b) If `v` comes before `u`,
then `v` is flagged when the pass ends and is visited as active by the
next pass from the state this pass leaves; and if no vertex occurs twice in
the order and `v` was not flagged when it was reached, this pass does not
visit `v` as active. -/
theorem frontier_same_pass_activation (ops : RakOps) (STRICT : Bool) (x : Graph)
    (buf : Scratch) (vcom : List Nat) (vaff : List Bool) (u v : Nat)
    (hv : v ∈ x.edgeKeys u) (hlt : v < vaff.length) :
    (∀ pre mid post : List Nat, x.keys = pre ++ u :: (mid ++ v :: post) →
      isAffected (rakMoveFrom ops STRICT x frontierFa (frontierFp x) pre
        { buf := buf, vcom := vcom, a := 0, env := vaff }).env u = true →
      rakCandidate ops STRICT x
        (rakMoveFrom ops STRICT x frontierFa (frontierFp x) pre
          { buf := buf, vcom := vcom, a := 0, env := vaff }).buf
        (rakMoveFrom ops STRICT x frontierFa (frontierFp x) pre
          { buf := buf, vcom := vcom, a := 0, env := vaff }).vcom u ≠ 0 →
      rakCandidate ops STRICT x
        (rakMoveFrom ops STRICT x frontierFa (frontierFp x) pre
          { buf := buf, vcom := vcom, a := 0, env := vaff }).buf
        (rakMoveFrom ops STRICT x frontierFa (frontierFp x) pre
          { buf := buf, vcom := vcom, a := 0, env := vaff }).vcom u ≠
        (rakMoveFrom ops STRICT x frontierFa (frontierFp x) pre
          { buf := buf, vcom := vcom, a := 0, env := vaff }).vcom.getD u 0 →
      isAffected (rakMoveFrom ops STRICT x frontierFa (frontierFp x) (pre ++ u :: mid)
        { buf := buf, vcom := vcom, a := 0, env := vaff }).env v = true ∧
      v ∈ rakActiveVisits ops STRICT x frontierFa (frontierFp x) x.keys
        { buf := buf, vcom := vcom, a := 0, env := vaff }) ∧
    (∀ pre mid post : List Nat, x.keys = pre ++ v :: (mid ++ u :: post) →
      isAffected (rakMoveFrom ops STRICT x frontierFa (frontierFp x) (pre ++ v :: mid)
        { buf := buf, vcom := vcom, a := 0, env := vaff }).env u = true →
      rakCandidate ops STRICT x
        (rakMoveFrom ops STRICT x frontierFa (frontierFp x) (pre ++ v :: mid)
          { buf := buf, vcom := vcom, a := 0, env := vaff }).buf
        (rakMoveFrom ops STRICT x frontierFa (frontierFp x) (pre ++ v :: mid)
          { buf := buf, vcom := vcom, a := 0, env := vaff }).vcom u ≠ 0 →
      rakCandidate ops STRICT x
        (rakMoveFrom ops STRICT x frontierFa (frontierFp x) (pre ++ v :: mid)
          { buf := buf, vcom := vcom, a := 0, env := vaff }).buf
        (rakMoveFrom ops STRICT x frontierFa (frontierFp x) (pre ++ v :: mid)
          { buf := buf, vcom := vcom, a := 0, env := vaff }).vcom u ≠
        (rakMoveFrom ops STRICT x frontierFa (frontierFp x) (pre ++ v :: mid)
          { buf := buf, vcom := vcom, a := 0, env := vaff }).vcom.getD u 0 →
      isAffected (rakMoveIteration ops STRICT buf vcom x frontierFa (frontierFp x) vaff).env v
        = true ∧
      v ∈ rakActiveVisits ops STRICT x frontierFa (frontierFp x) x.keys
        { buf := (rakMoveIteration ops STRICT buf vcom x frontierFa (frontierFp x) vaff).buf,
          vcom := (rakMoveIteration ops STRICT buf vcom x frontierFa (frontierFp x) vaff).vcom,
          a := 0,
          env := (rakMoveIteration ops STRICT buf vcom x frontierFa (frontierFp x) vaff).env } ∧
      (x.keys.Nodup →
        isAffected (rakMoveFrom ops STRICT x frontierFa (frontierFp x) pre
          { buf := buf, vcom := vcom, a := 0, env := vaff }).env v = false →
        v ∉ rakActiveVisits ops STRICT x frontierFa (frontierFp x) x.keys
          { buf := buf, vcom := vcom, a := 0, env := vaff })) := by
  refine ⟨?_, ?_⟩
  · intro pre mid post hkeys hact hc0 hcd
    have hflag : isAffected (rakMoveFrom ops STRICT x frontierFa (frontierFp x)
        (pre ++ u :: mid) { buf := buf, vcom := vcom, a := 0, env := vaff }).env v = true := by
      rw [rakMoveFrom_append, rakMoveFrom_cons]
      apply frontier_from_mono
      apply frontier_moved_flags ops STRICT x _ u v hact hc0 hcd hv
      rw [frontier_from_env_length]
      exact hlt
    refine ⟨hflag, ?_⟩
    have hsplit : x.keys = (pre ++ u :: mid) ++ v :: post := by
      rw [hkeys]
      simp
    rw [hsplit, rakActiveVisits_append]
    apply List.mem_append_right
    exact frontier_flagged_is_visited ops STRICT x (v :: post) _ v
      (List.mem_cons_self _ _) hflag
  · intro pre mid post hkeys hact hc0 hcd
    have hsplit : x.keys = (pre ++ v :: mid) ++ u :: post := by
      rw [hkeys]
      simp
    have hend : isAffected
        (rakMoveIteration ops STRICT buf vcom x frontierFa (frontierFp x) vaff).env v = true := by
      rw [rakMoveIteration, hsplit, rakMoveFrom_append, rakMoveFrom_cons]
      apply frontier_from_mono
      apply frontier_moved_flags ops STRICT x _ u v hact hc0 hcd hv
      rw [frontier_from_env_length]
      exact hlt
    have hvkeys : v ∈ x.keys := by
      rw [hkeys]
      simp
    refine ⟨hend, frontier_flagged_is_visited ops STRICT x x.keys _ v hvkeys hend, ?_⟩
    intro hnd hoff hmem
    rw [hkeys] at hnd
    have hnd1 : v ∉ pre := fun h => by
      have := (List.nodup_append.mp hnd).2.2
      exact this h (List.mem_cons_self _ _)
    have hnd2 : v ∉ mid ++ u :: post :=
      (List.nodup_cons.mp (List.nodup_append.mp hnd).2.1).1
    rw [hkeys, rakActiveVisits_append] at hmem
    rcases List.mem_append.mp hmem with h1 | h2
    · exact hnd1 (rakActiveVisits_subset ops STRICT x _ _ pre _ v h1)
    · unfold rakActiveVisits at h2
      have hfa : ¬ (frontierFa
          (rakMoveFrom ops STRICT x frontierFa (frontierFp x) pre
            { buf := buf, vcom := vcom, a := 0, env := vaff }).env
          (rakMoveFrom ops STRICT x frontierFa (frontierFp x) pre
            { buf := buf, vcom := vcom, a := 0, env := vaff }).vcom v = true) := by
        show ¬ (isAffected _ v = true)
        rw [hoff]
        decide
      rw [if_neg hfa, List.nil_append] at h2
      exact hnd2 (rakActiveVisits_subset ops STRICT x _ _ _ _ v h2)

/-- Witness for C18 on the path `1 - 2 - 3 - 4` from the singleton
assignment with only vertex `2` flagged: vertex `2` moves; its later
neighbour `3` is visited as active in the same pass, and its earlier
neighbour `1` is not visited as active in this pass but is in the next. -/
theorem frontier_same_pass_activation_witness :
    3 ∈ rakActiveVisits specOps false path4 frontierFa (frontierFp path4) path4.keys
      { buf := buf5, vcom := [0, 1, 2, 3, 4], a := 0,
        env := [false, false, true, false, false] } ∧
    1 ∉ rakActiveVisits specOps false path4 frontierFa (frontierFp path4) path4.keys
      { buf := buf5, vcom := [0, 1, 2, 3, 4], a := 0,
        env := [false, false, true, false, false] } ∧
    1 ∈ rakActiveVisits specOps false path4 frontierFa (frontierFp path4) path4.keys
      { buf := (rakMoveIteration specOps false buf5 [0, 1, 2, 3, 4] path4 frontierFa
          (frontierFp path4) [false, false, true, false, false]).buf,
        vcom := (rakMoveIteration specOps false buf5 [0, 1, 2, 3, 4] path4 frontierFa
          (frontierFp path4) [false, false, true, false, false]).vcom,
        a := 0,
        env := (rakMoveIteration specOps false buf5 [0, 1, 2, 3, 4] path4 frontierFa
          (frontierFp path4) [false, false, true, false, false]).env } :=
  ⟨((frontier_same_pass_activation specOps false path4 buf5 [0, 1, 2, 3, 4]
      [false, false, true, false, false] 2 3 (by decide) (by decide)).1
      [1] [] [4] rfl (by decide) (by decide!) (by decide!)).2,
    ((frontier_same_pass_activation specOps false path4 buf5 [0, 1, 2, 3, 4]
      [false, false, true, false, false] 2 1 (by decide) (by decide)).2
      [] [] [3, 4] rfl (by decide) (by decide!) (by decide!)).2.2 (by decide) (by decide),
    ((frontier_same_pass_activation specOps false path4 buf5 [0, 1, 2, 3, 4]
      [false, false, true, false, false] 2 1 (by decide) (by decide)).2
      [] [] [3, 4] rfl (by decide) (by decide!) (by decide!)).2.1⟩

end RakSeq
